import Mathlib

/-!
Shallow embedding of the PPR tabular activity aggregation and ranking engine:
the date cell parser, the per-month leaderboard ranking, the medal tally
calculator (`fetchMedalTotalsBulk`), the day-of-week aggregation of the
medals page, the cache behaviour of `loadTotals`, and the request
supersession controller.  Each definition is translated from the TypeScript
source; doc comments name the source location.  JavaScript numbers are
modelled as exact rationals, JS `Map`s as insertion-ordered association
lists, and environment-dependent primitives (`Number(s)`, textual date
parsing, local-time calendar accessors) as explicit function parameters.
-/

/-- A spreadsheet cell as the TypeScript code sees it: `none` models a missing
cell (JS `null` / `undefined`), `some s` a string-valued cell. -/
abbrev Cell := Option String

/-- Calendar view of a JS `Date` in the consumer's local time zone:
`fullYear`, `monthIdx`, `day`, `weekday` model `getFullYear()`, `getMonth()`
(0-based), `getDate()` and `getDay()`. -/
structure JSDate where
  fullYear : Int
  monthIdx : Int
  day : Int
  weekday : Int
deriving DecidableEq, Repr

/-- Largest absolute time value representable by a JS `Date`, in milliseconds
(`new Date(ms)` is an invalid date beyond this bound). -/
def maxDateMs : ℚ := 8640000000000000

/-- JS `s.trim()`: drop whitespace from both ends, modelled on the
character list so that it evaluates by kernel reduction. -/
def jsTrim (s : String) : String :=
  ⟨(((s.data.dropWhile Char.isWhitespace).reverse.dropWhile
      Char.isWhitespace).reverse)⟩

/-- Embedding of `parseDateCell` (src/hooks/useNameData.ts lines 17-29, same
code in the bulk-fetch module lines 14-26), returning the instant in
milliseconds since the epoch.  `num` models `Number(s)` on a nonempty trimmed
string (`none` = `NaN`); `textParse` models the textual branch
`new Date(s).getTime()` (`none` = invalid date).  The function is total:
no input throws. -/
def parseDateCell (num : String → Option ℚ) (textParse : String → Option ℚ)
    (cell : Cell) : Option ℚ :=
  match cell with
  | none => none
  | some s0 =>
    if s0 = "" then none
    else
      let s := jsTrim s0
      if s = "" then none
      else
        match num s with
        | some n =>
          if 0 < n then
            let ms := (n - 25569) * 86400 * 1000
            if |ms| ≤ maxDateMs then some ms else none
          else textParse s
        | none => textParse s

/-- `isSameCalendarDay` (bulk-fetch module lines 28-30 and
src/hooks/useNameData.ts lines 31-33): same local year, month and day. -/
def isSameCalendarDay (a b : JSDate) : Bool :=
  decide (a.fullYear = b.fullYear) && decide (a.monthIdx = b.monthIdx) &&
    decide (a.day = b.day)

/-! ### Stable sorting

ES2019 requires `Array.prototype.sort` to be stable.  Both comparators used
by the engine (`(a, b) => b.total - a.total` and the medal comparator) induce
a total preorder, for which the stable sort result is the unique reordering
that is sorted and keeps tied elements in their original order.  We realise
it as an insertion sort that inserts each element after all earlier elements
it does not strictly precede. -/

/-- Insert `x` into `l` before the first element that `x` strictly precedes
(`lt x y = true` means the comparator orders `x` strictly before `y`). -/
def insertBy (lt : α → α → Bool) (x : α) : List α → List α
  | [] => [x]
  | y :: ys => if lt x y then x :: y :: ys else y :: insertBy lt x ys

/-- Stable sort by the strict-precedence test `lt`: elements are inserted in
original order, and `insertBy` sends each one past all of its ties. -/
def stableSortBy (lt : α → α → Bool) (l : List α) : List α :=
  l.foldl (fun acc x => insertBy lt x acc) []

theorem insertBy_perm (lt : α → α → Bool) (x : α) (l : List α) :
    (insertBy lt x l).Perm (x :: l) := by
  induction l with
  | nil => simp [insertBy]
  | cons y ys ih =>
    simp only [insertBy]
    split
    · exact List.Perm.refl _
    · exact ((ih.cons y).trans (List.Perm.swap x y ys))

theorem stableSortBy_foldl_perm (lt : α → α → Bool) (l acc : List α) :
    (l.foldl (fun acc x => insertBy lt x acc) acc).Perm (acc ++ l) := by
  induction l generalizing acc with
  | nil => simp
  | cons x xs ih =>
    simp only [List.foldl_cons]
    refine (ih (insertBy lt x acc)).trans ?_
    refine ((insertBy_perm lt x acc).append_right xs).trans ?_
    exact List.perm_middle.symm

theorem stableSortBy_perm (lt : α → α → Bool) (l : List α) :
    (stableSortBy lt l).Perm l := by
  simpa [stableSortBy] using stableSortBy_foldl_perm lt l []

/-- Comparator consistency: `lt` behaves like "strictly greater key" for some
total order.  `htot`: whatever is not before `b` is not before anything
before `b`; `hasym`: `lt` is asymmetric. -/
theorem insertBy_pairwise (lt : α → α → Bool)
    (htot : ∀ a b c, lt a b = true → lt c b = false → lt c a = false)
    (hasym : ∀ a b, lt a b = true → lt b a = false)
    (x : α) (l : List α) (hl : l.Pairwise (fun a b => lt b a = false)) :
    (insertBy lt x l).Pairwise (fun a b => lt b a = false) := by
  induction l with
  | nil => simp [insertBy]
  | cons y ys ih =>
    rcases List.pairwise_cons.mp hl with ⟨hy, hys⟩
    simp only [insertBy]
    split
    · rename_i hxy
      refine List.pairwise_cons.mpr ⟨?_, hl⟩
      intro z hz
      rcases List.mem_cons.mp hz with rfl | hz
      · exact hasym _ _ hxy
      · exact htot x y z hxy (hy z hz)
    · rename_i hxy
      refine List.pairwise_cons.mpr ⟨?_, ih hys⟩
      intro z hz
      have := (insertBy_perm lt x ys).mem_iff.mp hz
      rcases List.mem_cons.mp this with rfl | hz'
      · simpa using hxy
      · exact hy z hz'

theorem stableSortBy_pairwise (lt : α → α → Bool)
    (htot : ∀ a b c, lt a b = true → lt c b = false → lt c a = false)
    (hasym : ∀ a b, lt a b = true → lt b a = false)
    (l : List α) :
    (stableSortBy lt l).Pairwise (fun a b => lt b a = false) := by
  suffices h : ∀ acc, acc.Pairwise (fun a b => lt b a = false) →
      (l.foldl (fun acc x => insertBy lt x acc) acc).Pairwise
        (fun a b => lt b a = false) by
    exact h [] (by simp)
  induction l with
  | nil => intro acc hacc; simpa using hacc
  | cons x xs ih =>
    intro acc hacc
    exact ih _ (insertBy_pairwise lt htot hasym x acc hacc)

/-- If no element of `l` strictly precedes another (all ties), the stable
sort is the identity. -/
theorem insertBy_of_forall_false (lt : α → α → Bool) (x : α) (l : List α)
    (h : ∀ y ∈ l, lt x y = false) : insertBy lt x l = l ++ [x] := by
  induction l with
  | nil => rfl
  | cons y ys ih =>
    have hy : lt x y = false := h y (by simp)
    simp only [insertBy, hy, Bool.false_eq_true, if_false]
    rw [ih (fun z hz => h z (by simp [hz]))]
    rfl

theorem stableSortBy_of_forall_false (lt : α → α → Bool) (l : List α)
    (h : ∀ x ∈ l, ∀ y ∈ l, lt x y = false) : stableSortBy lt l = l := by
  suffices hgen : ∀ (l' : List α), (∀ x ∈ l', ∀ y ∈ l', lt x y = false) →
      ∀ (acc : List α), (∀ x ∈ l', ∀ y ∈ acc, lt x y = false) →
      l'.foldl (fun acc x => insertBy lt x acc) acc = acc ++ l' by
    have := hgen l h [] (fun a _ b hb => absurd hb (List.not_mem_nil b))
    simpa [stableSortBy] using this
  intro l'
  induction l' with
  | nil =>
    intro _ acc _
    simp
  | cons x xs ih =>
    intro hl acc hacc
    simp only [List.foldl_cons]
    rw [insertBy_of_forall_false lt x acc (hacc x (by simp))]
    rw [ih (fun a ha b hb => hl a (by simp [ha]) b (by simp [hb]))
      (acc ++ [x]) (fun a ha b hb => ?_)]
    · simp
    · rcases List.mem_append.mp hb with hb | hb
      · exact hacc a (by simp [ha]) b hb
      · have hbx : b = x := by simpa using hb
        subst hbx
        exact hl a (by simp [ha]) b (by simp)

/-! ### Leaderboard ranking -/

/-- `LeaderboardEntry` (src/hooks/useLeaderboardData.ts line 142). -/
structure LeaderboardEntry where
  rank : Nat
  name : String
  total : ℚ
deriving DecidableEq, Repr

/-- `.map((e, i) => ({ rank: i + 1, ... }))`: attach 1-based contiguous
ranks to the sorted name/total pairs. -/
def assignRanks : Nat → List (String × ℚ) → List LeaderboardEntry
  | _, [] => []
  | i, p :: ps => ⟨i, p.1, p.2⟩ :: assignRanks (i + 1) ps

/-- The ranking step shared by `computeLeaderboardForMonth` (bulk-fetch module
lines 52-55) and `fetchLeaderboardForMonth`
(src/hooks/useLeaderboardData.ts lines 221-224):
`pairs.sort((a, b) => b.total - a.total).map((e, i) => ({rank: i+1, ...}))`. -/
def rankTotals (pairs : List (String × ℚ)) : List LeaderboardEntry :=
  assignRanks 1 (stableSortBy (fun a b => decide (b.2 < a.2)) pairs)

/-- `names.map((name, i) => ({ name, total: totalsByIndex[i] ?? 0 }))`:
pair each roster name with the total of its column. -/
def withTotals (f : Nat → ℚ) : Nat → List String → List (String × ℚ)
  | _, [] => []
  | i, nm :: rest => (nm, f i) :: withTotals f (i + 1) rest

/-- `Number(val)` on a possibly missing cell: `Number(undefined)` is `NaN`
(modelled `none`), otherwise the `num` oracle on the string. -/
def cellNum (num : String → Option ℚ) : Cell → Option ℚ
  | none => none
  | some s => num s

/-- Contribution of row `rowIdx` to one participant's monthly total
(bulk-fetch module lines 42-51): parse the date cell, require the row's
local year/month to match, then add `Number(val)` unless it is `NaN`.
`parseDate` abstracts `parseDateCell` composed with the local-time calendar
accessors of the resulting `Date`. -/
def monthRowContrib (parseDate : Cell → Option JSDate) (num : String → Option ℚ)
    (dateRows : List Cell) (valueRows : List Cell) (year month : Int)
    (rowIdx : Nat) : ℚ :=
  match parseDate (dateRows.getD rowIdx none) with
  | none => 0
  | some d =>
    if d.fullYear = year ∧ d.monthIdx + 1 = month then
      match cellNum num (valueRows.getD rowIdx none) with
      | some n => n
      | none => 0
    else 0

/-- Embedding of `computeLeaderboardForMonth` (bulk-fetch module lines
33-56): per-participant sums over rows `0 ≤ rowIdx < stopAtIndex`, then the
shared ranking step.  `dateRows` holds each row's first (date) cell and
`valueRowsByIndex` the per-participant value cells, as built by
`fetchAllSheetsBulk`. -/
def computeLeaderboardForMonth (parseDate : Cell → Option JSDate)
    (num : String → Option ℚ) (dateRows : List Cell)
    (valueRowsByIndex : List (List Cell)) (names : List String)
    (year month : Int) (stopAtIndex : Nat) : List LeaderboardEntry :=
  rankTotals (withTotals (fun nameIdx =>
    ((List.range stopAtIndex).map
      (monthRowContrib parseDate num dateRows
        (valueRowsByIndex.getD nameIdx []) year month)).sum) 0 names)

/-- `const gold = leaderboard[0]; const silver = leaderboard[1];
const bronze = leaderboard[2]` (bulk-fetch module lines 266-268): the medal
recipients taken from a month's leaderboard. -/
def monthAwards (lb : List LeaderboardEntry) :
    Option String × Option String × Option String :=
  ((lb[0]?).map (fun e => e.name), (lb[1]?).map (fun e => e.name),
    (lb[2]?).map (fun e => e.name))

/-! ### Ranking lemmas -/

/-- The name/total content of a leaderboard entry. -/
def entryPair (e : LeaderboardEntry) : String × ℚ := (e.name, e.total)

theorem assignRanks_map_pair (k : Nat) (l : List (String × ℚ)) :
    (assignRanks k l).map entryPair = l := by
  induction l generalizing k with
  | nil => rfl
  | cons p ps ih => simp [assignRanks, entryPair, ih]

theorem assignRanks_map_rank (k : Nat) (l : List (String × ℚ)) :
    (assignRanks k l).map (fun e => e.rank) = List.range' k l.length := by
  induction l generalizing k with
  | nil => rfl
  | cons p ps ih => simp [assignRanks, List.range', ih]

theorem assignRanks_filter_total (k : Nat) (l : List (String × ℚ)) (t : ℚ) :
    ((assignRanks k l).filter (fun e => decide (e.total = t))).map entryPair
      = l.filter (fun p => decide (p.2 = t)) := by
  induction l generalizing k with
  | nil => rfl
  | cons p ps ih =>
    obtain ⟨nm, tv⟩ := p
    by_cases hp : tv = t
    · subst hp
      simp [assignRanks, List.filter_cons, entryPair, ih]
    · simp [assignRanks, List.filter_cons, hp, entryPair, ih]

theorem rlt_asymm (a b : String × ℚ) :
    (fun a b : String × ℚ => decide (b.2 < a.2)) a b = true →
    (fun a b : String × ℚ => decide (b.2 < a.2)) b a = false := by
  simp only [decide_eq_true_eq, decide_eq_false_iff_not]
  exact fun h => lt_asymm h

theorem rlt_total (a b c : String × ℚ) :
    (fun a b : String × ℚ => decide (b.2 < a.2)) a b = true →
    (fun a b : String × ℚ => decide (b.2 < a.2)) c b = false →
    (fun a b : String × ℚ => decide (b.2 < a.2)) c a = false := by
  simp only [decide_eq_true_eq, decide_eq_false_iff_not]
  intro h1 h2
  exact fun h3 => h2 (lt_trans h1 h3)

theorem insertBy_sorted_total (x : String × ℚ) (acc : List (String × ℚ))
    (hacc : acc.Pairwise (fun a b => b.2 ≤ a.2)) :
    (insertBy (fun a b : String × ℚ => decide (b.2 < a.2)) x acc).Pairwise
      (fun a b => b.2 ≤ a.2) := by
  have h := insertBy_pairwise (fun a b : String × ℚ => decide (b.2 < a.2))
    rlt_total rlt_asymm x acc
    (hacc.imp (fun h => by simpa using not_lt.mpr h))
  exact (h.imp (fun h => not_lt.mp (by simpa using h)))

theorem insertBy_filter_total (x : String × ℚ) (acc : List (String × ℚ))
    (t : ℚ) (hacc : acc.Pairwise (fun a b => b.2 ≤ a.2)) :
    (insertBy (fun a b : String × ℚ => decide (b.2 < a.2)) x acc).filter
        (fun p => decide (p.2 = t)) =
      if x.2 = t
      then acc.filter (fun p => decide (p.2 = t)) ++ [x]
      else acc.filter (fun p => decide (p.2 = t)) := by
  induction acc with
  | nil =>
    by_cases hx : x.2 = t <;> simp [insertBy, List.filter_cons, hx]
  | cons y ys ih =>
    rcases List.pairwise_cons.mp hacc with ⟨hy, hys⟩
    by_cases hlt : y.2 < x.2
    · simp only [insertBy, decide_eq_true hlt, if_true]
      by_cases hx : x.2 = t
      · have hnil : (y :: ys).filter (fun p => decide (p.2 = t)) = [] := by
          rw [List.filter_eq_nil_iff]
          intro z hz
          have hzle : z.2 ≤ y.2 := by
            rcases List.mem_cons.mp hz with rfl | hz'
            · exact le_refl _
            · exact hy z hz'
          simp only [decide_eq_true_eq]
          intro hzt
          rw [hzt, ← hx] at hzle
          exact absurd hlt (not_lt.mpr hzle)
        simp [List.filter_cons, hx, hnil]
      · simp [List.filter_cons, hx, if_neg hx]
    · simp only [insertBy, decide_eq_false hlt, Bool.false_eq_true, if_false]
      by_cases hyt : y.2 = t
      · by_cases hx : x.2 = t <;>
          simp [List.filter_cons, hyt, ih hys, hx]
      · by_cases hx : x.2 = t <;>
          simp [List.filter_cons, hyt, ih hys, hx]

theorem stableSortBy_filter_total (l : List (String × ℚ)) (t : ℚ) :
    (stableSortBy (fun a b : String × ℚ => decide (b.2 < a.2)) l).filter
        (fun p => decide (p.2 = t)) = l.filter (fun p => decide (p.2 = t)) := by
  suffices hgen : ∀ (l' acc : List (String × ℚ)),
      acc.Pairwise (fun a b => b.2 ≤ a.2) →
      (l'.foldl (fun acc x =>
        insertBy (fun a b : String × ℚ => decide (b.2 < a.2)) x acc) acc).filter
          (fun p => decide (p.2 = t))
        = acc.filter (fun p => decide (p.2 = t)) ++
            l'.filter (fun p => decide (p.2 = t)) by
    simpa [stableSortBy] using hgen l [] List.Pairwise.nil
  intro l'
  induction l' with
  | nil => intro acc _; simp
  | cons x xs ih =>
    intro acc hacc
    simp only [List.foldl_cons]
    rw [ih _ (insertBy_sorted_total x acc hacc),
      insertBy_filter_total x acc t hacc]
    by_cases hx : x.2 = t <;> simp [List.filter_cons, hx]

/-- **C1**: the ranking step shared by `computeLeaderboardForMonth` and
`fetchLeaderboardForMonth` returns a permutation of the roster name/total
pairs, sorted descending by total, with contiguous 1-based ranks `1..N`;
participants with equal totals keep their original roster order (stable
sort), so totals `[10, 10, 7]` yield ranks `1, 2, 3`, not a shared-rank
scheme. -/
theorem rankTotals_spec (pairs : List (String × ℚ)) :
    ((rankTotals pairs).map entryPair).Perm pairs ∧
    (rankTotals pairs).map (fun e => e.rank) = List.range' 1 pairs.length ∧
    (rankTotals pairs).Pairwise (fun a b => b.total ≤ a.total) ∧
    (∀ t : ℚ, ((rankTotals pairs).filter (fun e => decide (e.total = t))).map
      entryPair = pairs.filter (fun p => decide (p.2 = t))) ∧
    rankTotals [("A", (10 : ℚ)), ("B", 10), ("C", 7)] =
      [⟨1, "A", 10⟩, ⟨2, "B", 10⟩, ⟨3, "C", 7⟩] := by
  refine ⟨?_, ?_, ?_, ?_, by decide⟩
  · rw [rankTotals, assignRanks_map_pair]
    exact stableSortBy_perm _ pairs
  · rw [rankTotals, assignRanks_map_rank,
      (stableSortBy_perm _ pairs).length_eq]
  · have hp := stableSortBy_pairwise (fun a b : String × ℚ => decide (b.2 < a.2))
      rlt_total rlt_asymm pairs
    have hle : (stableSortBy (fun a b : String × ℚ => decide (b.2 < a.2))
        pairs).Pairwise (fun a b => b.2 ≤ a.2) :=
      hp.imp (fun h => not_lt.mp (by simpa using h))
    rw [rankTotals]
    rw [← assignRanks_map_pair 1
      (stableSortBy (fun a b : String × ℚ => decide (b.2 < a.2)) pairs)] at hle
    exact List.pairwise_map.mp hle
  · intro t
    rw [rankTotals, assignRanks_filter_total, stableSortBy_filter_total]

/-- **C5**: `parseDateCell` returns `null` on a missing, empty or
whitespace-only cell; when the trimmed text is numeric and `> 0` it returns
the instant `(serial - 25569) * 86400 * 1000` milliseconds since the epoch
(`null` when that instant is outside the valid `Date` range); otherwise it
hands the trimmed text to the textual date parse, whose failure is `null`.
It is a total function, so no input throws. -/
theorem parseDateCell_spec (num textParse : String → Option ℚ) (cell : Cell) :
    (cell = none → parseDateCell num textParse cell = none) ∧
    (∀ s, cell = some s → jsTrim s = "" →
      parseDateCell num textParse cell = none) ∧
    (∀ s n, cell = some s → jsTrim s ≠ "" → num (jsTrim s) = some n →
      0 < n →
      parseDateCell num textParse cell =
        if |(n - 25569) * 86400 * 1000| ≤ maxDateMs
        then some ((n - 25569) * 86400 * 1000) else none) ∧
    (∀ s, cell = some s → jsTrim s ≠ "" →
      (num (jsTrim s) = none ∨ ∃ n, num (jsTrim s) = some n ∧ ¬ 0 < n) →
      parseDateCell num textParse cell = textParse (jsTrim s)) := by
  refine ⟨?_, ?_, ?_, ?_⟩
  · rintro rfl
    rfl
  · rintro s rfl htrim
    by_cases hs : s = ""
    · simp [parseDateCell, hs]
    · simp [parseDateCell, hs, htrim]
  · rintro s n rfl htrim hnum hpos
    have hs : s ≠ "" := by
      intro h
      rw [h] at htrim
      exact htrim rfl
    simp [parseDateCell, hs, htrim, hnum, hpos]
  · rintro s rfl htrim hcase
    have hs : s ≠ "" := by
      intro h
      rw [h] at htrim
      exact htrim rfl
    rcases hcase with hnone | ⟨n, hsome, hneg⟩
    · simp [parseDateCell, hs, htrim, hnone]
    · simp [parseDateCell, hs, htrim, hsome, hneg]

/-- Witness for C5: on the cell `" 45000 "` with an oracle that reads
`"45000"` as the number 45000, the parser follows the day-serial branch. -/
theorem parseDateCell_spec_witness :
    parseDateCell (fun s => if s = "45000" then some 45000 else none)
        (fun _ => none) (some " 45000 ") =
      if |((45000 : ℚ) - 25569) * 86400 * 1000| ≤ maxDateMs
      then some (((45000 : ℚ) - 25569) * 86400 * 1000) else none :=
  (parseDateCell_spec (fun s => if s = "45000" then some 45000 else none)
      (fun _ => none) (some " 45000 ")).2.2.1 " 45000 " 45000 rfl
    (by decide) (by decide) (by norm_num)

/-! ### A month with no matching data (C10) -/

theorem withTotals_const_zero (f : Nat → ℚ) (h : ∀ i, f i = 0) (k : Nat)
    (names : List String) :
    withTotals f k names = names.map (fun nm => (nm, (0 : ℚ))) := by
  induction names generalizing k with
  | nil => rfl
  | cons nm rest ih => simp [withTotals, h k, ih]

theorem assignRanks_getElem? (k i : Nat) (l : List (String × ℚ)) :
    (assignRanks k l)[i]? =
      l[i]?.map (fun p => (⟨k + i, p.1, p.2⟩ : LeaderboardEntry)) := by
  induction l generalizing k i with
  | nil => simp [assignRanks]
  | cons p ps ih =>
    cases i with
    | zero => simp [assignRanks]
    | succ j =>
      have := ih (k + 1) j
      simp only [assignRanks, List.getElem?_cons_succ, this]
      have harith : k + 1 + j = k + (j + 1) := by omega
      rw [harith]

/-- **C10**: when, within the scanned range, no row matches the requested
year and month with a numeric value, `computeLeaderboardForMonth` still
returns the full roster, each with total 0, ranked `1..N` in roster order,
and the medal awarding of `fetchMedalTotalsBulk` (`leaderboard[0..2]`) still
credits gold, silver and bronze to the first three roster participants. -/
theorem computeLeaderboardForMonth_empty_month
    (parseDate : Cell → Option JSDate) (num : String → Option ℚ)
    (dateRows : List Cell) (valueRowsByIndex : List (List Cell))
    (names : List String) (year month : Int) (stopAtIndex : Nat)
    (h : ∀ rowIdx < stopAtIndex, ∀ d,
      parseDate (dateRows.getD rowIdx none) = some d →
      d.fullYear = year → d.monthIdx + 1 = month →
      ∀ nameIdx, cellNum num
        ((valueRowsByIndex.getD nameIdx []).getD rowIdx none) = none) :
    (computeLeaderboardForMonth parseDate num dateRows valueRowsByIndex names
        year month stopAtIndex).map (fun e => e.name) = names ∧
    (∀ e ∈ computeLeaderboardForMonth parseDate num dateRows valueRowsByIndex
        names year month stopAtIndex, e.total = 0) ∧
    (computeLeaderboardForMonth parseDate num dateRows valueRowsByIndex names
        year month stopAtIndex).map (fun e => e.rank) =
      List.range' 1 names.length ∧
    monthAwards (computeLeaderboardForMonth parseDate num dateRows
        valueRowsByIndex names year month stopAtIndex) =
      (names[0]?, names[1]?, names[2]?) := by
  have hcontrib : ∀ nameIdx : Nat, ∀ rowIdx ∈ List.range stopAtIndex,
      monthRowContrib parseDate num dateRows (valueRowsByIndex.getD nameIdx [])
        year month rowIdx = 0 := by
    intro nameIdx rowIdx hmem
    rw [monthRowContrib]
    cases hpd : parseDate (dateRows.getD rowIdx none) with
    | none => rfl
    | some d =>
      by_cases hmatch : d.fullYear = year ∧ d.monthIdx + 1 = month
      · simp only [if_pos hmatch]
        rw [h rowIdx (List.mem_range.mp hmem) d hpd hmatch.1 hmatch.2 nameIdx]
      · simp only [if_neg hmatch]
  have htot : ∀ nameIdx : Nat,
      ((List.range stopAtIndex).map
        (monthRowContrib parseDate num dateRows
          (valueRowsByIndex.getD nameIdx []) year month)).sum = 0 := by
    intro nameIdx
    apply List.sum_eq_zero
    intro x hx
    rcases List.mem_map.mp hx with ⟨rowIdx, hmem, rfl⟩
    exact hcontrib nameIdx rowIdx hmem
  have hlb : computeLeaderboardForMonth parseDate num dateRows valueRowsByIndex
      names year month stopAtIndex =
      assignRanks 1 (names.map (fun nm => (nm, (0 : ℚ)))) := by
    rw [computeLeaderboardForMonth, withTotals_const_zero _ htot, rankTotals]
    rw [stableSortBy_of_forall_false]
    intro x hx y hy
    rcases List.mem_map.mp hx with ⟨nx, _, rfl⟩
    rcases List.mem_map.mp hy with ⟨ny, _, rfl⟩
    simp
  rw [hlb]
  refine ⟨?_, ?_, ?_, ?_⟩
  · have : (assignRanks 1 (names.map (fun nm => (nm, (0 : ℚ))))).map
        (fun e => e.name) =
        ((assignRanks 1 (names.map (fun nm => (nm, (0 : ℚ))))).map
          entryPair).map Prod.fst := by
      rw [List.map_map]
      rfl
    rw [this, assignRanks_map_pair, List.map_map]
    exact List.map_id names
  · intro e he
    have hmem : entryPair e ∈ names.map (fun nm => (nm, (0 : ℚ))) := by
      rw [← assignRanks_map_pair 1 (names.map (fun nm => (nm, (0 : ℚ))))]
      exact List.mem_map_of_mem entryPair he
    rcases List.mem_map.mp hmem with ⟨nm, _, hpair⟩
    have : (entryPair e).2 = 0 := by rw [← hpair]
    exact this
  · rw [assignRanks_map_rank, List.length_map]
  · rw [monthAwards]
    rw [assignRanks_getElem?, assignRanks_getElem?, assignRanks_getElem?]
    cases h0 : names[0]? <;> cases h1 : names[1]? <;> cases h2 : names[2]? <;>
      simp [List.getElem?_map, h0, h1, h2]

/-- Witness for C10: a one-row corpus whose date cell parses to nothing, a
three-name roster; the leaderboard is the roster with zero totals, ranks
1, 2, 3, and the awards go to the first three roster names. -/
theorem computeLeaderboardForMonth_empty_month_witness :
    (computeLeaderboardForMonth (fun _ => none) (fun _ => none) [some "x"]
        [[some "1"], [some "2"], [some "3"]] ["A", "B", "C"] 2024 1 1).map
      (fun e => e.name) = ["A", "B", "C"] ∧
    (computeLeaderboardForMonth (fun _ => none) (fun _ => none) [some "x"]
        [[some "1"], [some "2"], [some "3"]] ["A", "B", "C"] 2024 1 1).map
      (fun e => e.rank) = [1, 2, 3] ∧
    monthAwards (computeLeaderboardForMonth (fun _ => none) (fun _ => none)
        [some "x"] [[some "1"], [some "2"], [some "3"]] ["A", "B", "C"]
        2024 1 1) = (some "A", some "B", some "C") := by
  obtain ⟨h1, _, h3, h4⟩ := computeLeaderboardForMonth_empty_month
    (fun _ => none) (fun _ => none) [some "x"]
    [[some "1"], [some "2"], [some "3"]] ["A", "B", "C"] 2024 1 1
    (fun rowIdx _ d hd => absurd hd (by simp))
  exact ⟨h1, by rw [h3]; rfl, h4⟩

/-! ### Medal tallies (`fetchMedalTotalsBulk`) -/

/-- A medal type (`'gold' | 'silver' | 'bronze'`). -/
inductive Medal
  | gold
  | silver
  | bronze
deriving DecidableEq, Repr

/-- Per-participant medal counters (`{ gold, silver, bronze }`). -/
structure MedalCounts where
  gold : Nat
  silver : Nat
  bronze : Nat
deriving DecidableEq, Repr

def MedalCounts.zero : MedalCounts := ⟨0, 0, 0⟩

/-- `cur[type] += 1`. -/
def MedalCounts.addOne (c : MedalCounts) : Medal → MedalCounts
  | .gold => { c with gold := c.gold + 1 }
  | .silver => { c with silver := c.silver + 1 }
  | .bronze => { c with bronze := c.bronze + 1 }

/-- A JS `Map` as an insertion-ordered association list.  `Map.set` on a
present key updates it in place; on an absent key it appends, so
`listUpsert k d f` rewrites the value at `k` through `f` (starting from the
default `d` when `k` is new). -/
def listUpsert [DecidableEq κ] (k : κ) (d : β) (f : β → β) :
    List (κ × β) → List (κ × β)
  | [] => [(k, f d)]
  | (k', v) :: rest =>
    if k' = k then (k', f v) :: rest else (k', v) :: listUpsert k d f rest

/-- `Map.get`. -/
def listGet [DecidableEq κ] (k : κ) : List (κ × β) → Option β
  | [] => none
  | (k', v) :: rest => if k' = k then some v else listGet k rest

/-- One participant-keyed medal map (a JS `Map<string, {gold,silver,bronze}>`). -/
abbrev CMap := List (String × MedalCounts)

/-- `addMedal` (bulk-fetch module lines 206-214): bump one counter of `name`,
creating the `{0,0,0}` record if absent. -/
def addMedal (m : CMap) (name : String) (t : Medal) : CMap :=
  listUpsert name MedalCounts.zero (fun c => c.addOne t) m

/-- A `getOrCreate…` call with no medal added: materialise the key (the loop
body runs these before the `if (gold)` checks). -/
def nmapTouch [DecidableEq κ] (m : List (κ × CMap)) (k : κ) :
    List (κ × CMap) :=
  listUpsert k [] id m

/-- `getOrCreate…` followed by `addMedal` on the inner map. -/
def nmapAdd [DecidableEq κ] (m : List (κ × CMap)) (k : κ) (name : String)
    (t : Medal) : List (κ × CMap) :=
  listUpsert k [] (fun cm => addMedal cm name t) m

/-- Doubly nested `getOrCreate…` (per month/quarter, then per sheet). -/
def n2Touch [DecidableEq κ] (m : List (κ × List (String × CMap))) (k : κ)
    (sheet : String) : List (κ × List (String × CMap)) :=
  listUpsert k [] (fun inner => nmapTouch inner sheet) m

def n2Add [DecidableEq κ] (m : List (κ × List (String × CMap))) (k : κ)
    (sheet : String) (name : String) (t : Medal) :
    List (κ × List (String × CMap)) :=
  listUpsert k [] (fun inner => nmapAdd inner sheet name t) m

/-- `Math.ceil(month / 3)` for months 1-12. -/
def quarterOf (month : Int) : Int := (month + 2) / 3

/-- `SheetBulkData` (bulk-fetch module lines 58-63): the per-category data
assembled by `fetchAllSheetsBulk`. -/
structure SheetBulkData where
  names : List String
  dateRows : List Cell
  valueRowsByIndex : List (List Cell)
  stopAtIndex : Nat

/-- The six aggregation maps of `fetchMedalTotalsBulk` (lines 142-147). -/
structure AggState where
  year : CMap
  byMonth : List (Int × CMap)
  byQuarter : List (Int × CMap)
  bySheet : List (String × CMap)
  bySheetByMonth : List (Int × List (String × CMap))
  bySheetByQuarter : List (Int × List (String × CMap))

def AggState.empty : AggState := ⟨[], [], [], [], [], []⟩

/-- Credit one medal to `name` in all six aggregates (the `addMedal` calls
under `if (gold)` / `if (silver)` / `if (bronze)`, lines 274-297). -/
def creditAll (st : AggState) (sheet : String) (month : Int) (name : String)
    (t : Medal) : AggState where
  year := addMedal st.year name t
  byMonth := nmapAdd st.byMonth month name t
  byQuarter := nmapAdd st.byQuarter (quarterOf month) name t
  bySheet := nmapAdd st.bySheet sheet name t
  bySheetByMonth := n2Add st.bySheetByMonth month sheet name t
  bySheetByQuarter := n2Add st.bySheetByQuarter (quarterOf month) sheet name t

/-- `if (gold) { addMedal(...) }`: credit the recipient when the
leaderboard position exists. -/
def creditOpt (st : AggState) (sheet : String) (month : Int)
    (who : Option String) (t : Medal) : AggState :=
  match who with
  | some nm => creditAll st sheet month nm t
  | none => st

/-- One iteration of the inner month loop (lines 257-298): compute the
month's leaderboard, materialise the month/quarter/sheet maps, then credit
`leaderboard[0]`, `leaderboard[1]`, `leaderboard[2]` when present. -/
def processMonth (parseDate : Cell → Option JSDate) (num : String → Option ℚ)
    (sheet : String) (data : SheetBulkData) (year month : Int)
    (st : AggState) : AggState :=
  let lb := computeLeaderboardForMonth parseDate num data.dateRows
    data.valueRowsByIndex data.names year month data.stopAtIndex
  let awards := monthAwards lb
  let st : AggState :=
    { st with
      byMonth := nmapTouch st.byMonth month
      byQuarter := nmapTouch st.byQuarter (quarterOf month)
      bySheet := nmapTouch st.bySheet sheet
      bySheetByMonth := n2Touch st.bySheetByMonth month sheet
      bySheetByQuarter := n2Touch st.bySheetByQuarter (quarterOf month) sheet }
  creditOpt (creditOpt (creditOpt st sheet month awards.1 .gold)
    sheet month awards.2.1 .silver) sheet month awards.2.2 .bronze

/-- `monthsToFetch` (lines 129-132). -/
def monthsToFetch (year currentYear currentMonth : Int) : Int :=
  if year < currentYear then 12
  else if year = currentYear then currentMonth else 0

/-- The month indices `1 .. n` iterated by `for (let month = 1;
month <= monthsToFetch; month++)`. -/
def monthsList (n : Int) : List Int :=
  (List.range n.toNat).map (fun i => (i : Int) + 1)

/-- The sheet loop (lines 253-299): sheets without bulk data are skipped
(`if (!data) continue`); for each remaining sheet the months `1..n` are
processed in order. -/
def aggregateSheets (parseDate : Cell → Option JSDate)
    (num : String → Option ℚ) (sheetNames : List String)
    (sheetsData : String → Option SheetBulkData) (year : Int)
    (months : List Int) : AggState :=
  sheetNames.foldl (fun st sheet =>
    match sheetsData sheet with
    | none => st
    | some data => months.foldl (fun st month =>
        processMonth parseDate num sheet data year month st) st)
    AggState.empty

/-- `MedalCountWithByType` (lines 112-118).  `byType = []` models the
omitted (`undefined`) breakdown. -/
structure MedalCount where
  name : String
  gold : Nat
  silver : Nat
  bronze : Nat
  byType : List (String × MedalCounts)
deriving DecidableEq, Repr

/-- `buildByType` (lines 216-229): the per-sheet breakdown for `name`,
restricted to sheets where it has at least one medal. -/
def buildByType (sheetNames : List String)
    (sheetAggregates : List (String × CMap)) (name : String) :
    List (String × MedalCounts) :=
  sheetNames.filterMap (fun sheet =>
    match listGet sheet sheetAggregates with
    | none => none
    | some sheetMap =>
      match listGet name sheetMap with
      | none => none
      | some c =>
        if 0 < c.gold ∨ 0 < c.silver ∨ 0 < c.bronze
        then some (sheet, c) else none)

/-- The weighted score `gold * 3 + silver * 2 + bronze` of the comparator. -/
def medalScore (e : MedalCount) : Nat := e.gold * 3 + e.silver * 2 + e.bronze

/-- The comparator of `sortCounts` (lines 242-249): `medalBefore a b = true`
iff the comparator returns a negative number on `(a, b)`, i.e. `a` sorts
strictly before `b`. -/
def medalBefore (a b : MedalCount) : Bool :=
  if medalScore b ≠ medalScore a then decide (medalScore b < medalScore a)
  else if b.gold ≠ a.gold then decide (b.gold < a.gold)
  else if b.silver ≠ a.silver then decide (b.silver < a.silver)
  else decide (b.bronze < a.bronze)

/-- The `.map(([name, counts]) => ({name, ...counts, byType: ...}))` step of
`sortCounts` (lines 236-240). -/
def toMedalCount (sheetNames : List String)
    (sheetAggregates : List (String × CMap)) (p : String × MedalCounts) :
    MedalCount :=
  { name := p.1, gold := p.2.gold, silver := p.2.silver, bronze := p.2.bronze,
    byType := buildByType sheetNames sheetAggregates p.1 }

/-- `sortCounts` (lines 231-250): attach `byType`, keep only participants
with at least one medal, sort by the weighted-score comparator (stable). -/
def sortCounts (sheetNames : List String) (entries : CMap)
    (sheetAggregates : List (String × CMap)) : List MedalCount :=
  stableSortBy medalBefore
    ((entries.map (toMedalCount sheetNames sheetAggregates)).filter
      (fun e => decide (0 < e.gold) || decide (0 < e.silver) ||
        decide (0 < e.bronze)))

/-- The `byQuarter` result record `{1: [], 2: [], 3: [], 4: []}`. -/
structure QuarterRecord where
  q1 : List MedalCount
  q2 : List MedalCount
  q3 : List MedalCount
  q4 : List MedalCount
deriving DecidableEq, Repr

/-- `byQuarter[q] = v`. -/
def QuarterRecord.set (r : QuarterRecord) (q : Int) (v : List MedalCount) :
    QuarterRecord :=
  if q = 1 then { r with q1 := v }
  else if q = 2 then { r with q2 := v }
  else if q = 3 then { r with q3 := v }
  else if q = 4 then { r with q4 := v }
  else r

/-- The result shape of `fetchMedalTotalsBulk` (lines 124-128). -/
structure MedalTotalsByPeriod where
  byYear : List MedalCount
  byQuarter : QuarterRecord
  byMonth : List (Int × List MedalCount)
deriving DecidableEq, Repr

/-- The future-year result (lines 134-140). -/
def emptyTotals : MedalTotalsByPeriod := ⟨[], ⟨[], [], [], []⟩, []⟩

/-- Embedding of `fetchMedalTotalsBulk` (lines 121-319).  `currentYear` and
`currentMonth` model `new Date()`; `sheetsData` is the result of
`fetchAllSheetsBulk`. -/
def fetchMedalTotalsBulk (parseDate : Cell → Option JSDate)
    (num : String → Option ℚ) (sheetNames : List String)
    (sheetsData : String → Option SheetBulkData)
    (year currentYear currentMonth : Int) : MedalTotalsByPeriod :=
  let n := monthsToFetch year currentYear currentMonth
  if n = 0 then emptyTotals
  else
    let st := aggregateSheets parseDate num sheetNames sheetsData year
      (monthsList n)
    { byYear := sortCounts sheetNames st.year st.bySheet
      byQuarter := st.byQuarter.foldl (fun r q =>
        r.set q.1 (sortCounts sheetNames q.2
          ((listGet q.1 st.bySheetByQuarter).getD []))) ⟨[], [], [], []⟩
      byMonth := st.byMonth.map (fun q =>
        (q.1, sortCounts sheetNames q.2
          ((listGet q.1 st.bySheetByMonth).getD []))) }

/-! ### Month-count policy (C6) -/

/-- **C6**: the bulk computation iterates all 12 months for a past year,
months `1..currentMonth` for the current year, and zero months for a future
year, in which case it returns the empty medal structure rather than an
error. -/
theorem fetchMedalTotalsBulk_month_policy (parseDate : Cell → Option JSDate)
    (num : String → Option ℚ) (sheetNames : List String)
    (sheetsData : String → Option SheetBulkData)
    (year currentYear currentMonth : Int) :
    (year < currentYear →
      monthsToFetch year currentYear currentMonth = 12 ∧
      monthsList (monthsToFetch year currentYear currentMonth) =
        [1, 2, 3, 4, 5, 6, 7, 8, 9, 10, 11, 12]) ∧
    (year = currentYear →
      monthsToFetch year currentYear currentMonth = currentMonth) ∧
    (currentYear < year →
      monthsToFetch year currentYear currentMonth = 0 ∧
      fetchMedalTotalsBulk parseDate num sheetNames sheetsData year
        currentYear currentMonth = emptyTotals) := by
  refine ⟨?_, ?_, ?_⟩
  · intro h
    rw [monthsToFetch, if_pos h]
    exact ⟨rfl, by decide⟩
  · intro h
    have h1 : ¬ year < currentYear := by omega
    rw [monthsToFetch, if_neg h1, if_pos h]
  · intro h
    have h1 : ¬ year < currentYear := by omega
    have h2 : year ≠ currentYear := by omega
    constructor
    · rw [monthsToFetch, if_neg h1, if_neg h2]
    · rw [fetchMedalTotalsBulk]
      simp only [monthsToFetch, if_neg h1, if_neg h2]
      rfl

/-- Witness for C6 at the concrete instant (currentYear 2025, month 10):
the past year 2024 iterates months 1..12, and the future year 2026 yields
the empty structure. -/
theorem fetchMedalTotalsBulk_month_policy_witness :
    (monthsToFetch 2024 2025 10 = 12 ∧
      monthsList (monthsToFetch 2024 2025 10) =
        [1, 2, 3, 4, 5, 6, 7, 8, 9, 10, 11, 12]) ∧
    monthsToFetch 2025 2025 10 = 10 ∧
    (monthsToFetch 2026 2025 10 = 0 ∧
      fetchMedalTotalsBulk (fun _ => none) (fun _ => none) ["Push"]
        (fun _ => none) 2026 2025 10 = emptyTotals) :=
  ⟨(fetchMedalTotalsBulk_month_policy (fun _ => none) (fun _ => none)
      ["Push"] (fun _ => none) 2024 2025 10).1 (by decide),
   (fetchMedalTotalsBulk_month_policy (fun _ => none) (fun _ => none)
      ["Push"] (fun _ => none) 2025 2025 10).2.1 rfl,
   (fetchMedalTotalsBulk_month_policy (fun _ => none) (fun _ => none)
      ["Push"] (fun _ => none) 2026 2025 10).2.2 (by decide)⟩

/-! ### Sortedness and nonzero filtering of medal lists (C3) -/

/-- The descending lexicographic order on (weighted score, gold, silver,
bronze) that `sortCounts` establishes: `medalGE a b` states that `a` may
come before `b` in the output. -/
def medalGE (a b : MedalCount) : Prop :=
  medalScore b < medalScore a ∨
    (medalScore a = medalScore b ∧ (b.gold < a.gold ∨ (a.gold = b.gold ∧
      (b.silver < a.silver ∨ (a.silver = b.silver ∧ b.bronze ≤ a.bronze)))))

theorem medalBefore_false_iff (a b : MedalCount) :
    medalBefore b a = false ↔ medalGE a b := by
  rw [medalBefore, medalGE]
  split_ifs with h1 h2 h3 <;>
    simp only [decide_eq_false_iff_not, not_lt] <;> omega

theorem medalBefore_true_iff (a b : MedalCount) :
    medalBefore a b = true ↔ ¬ medalGE b a := by
  rw [← medalBefore_false_iff]
  simp

theorem medalBefore_asymm (a b : MedalCount) :
    medalBefore a b = true → medalBefore b a = false := by
  intro h
  rw [medalBefore_false_iff]
  have hn := (medalBefore_true_iff a b).mp h
  rw [medalGE] at hn
  rw [medalGE]
  omega

theorem medalBefore_total (a b c : MedalCount) :
    medalBefore a b = true → medalBefore c b = false →
    medalBefore c a = false := by
  intro h1 h2
  have hn := (medalBefore_true_iff a b).mp h1
  have hg := (medalBefore_false_iff b c).mp h2
  rw [medalBefore_false_iff]
  rw [medalGE] at hn hg ⊢
  omega

/-- A medal list is well-formed when every entry has at least one medal and
the list is sorted by the weighted score, ties broken by gold, silver,
bronze, all descending. -/
def sortedMedalList (l : List MedalCount) : Prop :=
  (∀ e ∈ l, 0 < e.gold ∨ 0 < e.silver ∨ 0 < e.bronze) ∧ l.Pairwise medalGE

theorem sortedMedalList_nil : sortedMedalList [] :=
  ⟨fun e he => absurd he (List.not_mem_nil e), List.Pairwise.nil⟩

theorem sortCounts_sorted (sheetNames : List String) (entries : CMap)
    (sheetAggregates : List (String × CMap)) :
    sortedMedalList (sortCounts sheetNames entries sheetAggregates) := by
  constructor
  · intro e he
    have hmem := (stableSortBy_perm medalBefore _).mem_iff.mp he
    have := List.of_mem_filter hmem
    have h' : (0 < e.gold ∨ 0 < e.silver) ∨ 0 < e.bronze := by simpa using this
    tauto
  · have hp := stableSortBy_pairwise medalBefore medalBefore_total
      medalBefore_asymm
      ((entries.map (toMedalCount sheetNames sheetAggregates)).filter
        (fun e => decide (0 < e.gold) || decide (0 < e.silver) ||
          decide (0 < e.bronze)))
    exact hp.imp (fun h => (medalBefore_false_iff _ _).mp h)

theorem QuarterRecord.set_sorted (r : QuarterRecord) (q : Int)
    (v : List MedalCount) (hr : sortedMedalList r.q1 ∧ sortedMedalList r.q2 ∧
      sortedMedalList r.q3 ∧ sortedMedalList r.q4) (hv : sortedMedalList v) :
    sortedMedalList (r.set q v).q1 ∧ sortedMedalList (r.set q v).q2 ∧
      sortedMedalList (r.set q v).q3 ∧ sortedMedalList (r.set q v).q4 := by
  rw [QuarterRecord.set]
  split_ifs <;> exact ⟨by first | exact hv | exact hr.1,
    by first | exact hv | exact hr.2.1,
    by first | exact hv | exact hr.2.2.1,
    by first | exact hv | exact hr.2.2.2⟩

/-- All six output lists of the medal calculator are well-formed. -/
def sortedTotals (r : MedalTotalsByPeriod) : Prop :=
  sortedMedalList r.byYear ∧ sortedMedalList r.byQuarter.q1 ∧
    sortedMedalList r.byQuarter.q2 ∧ sortedMedalList r.byQuarter.q3 ∧
    sortedMedalList r.byQuarter.q4 ∧ ∀ q ∈ r.byMonth, sortedMedalList q.2

theorem quarterFold_sorted (sheetNames : List String)
    (sq : List (Int × List (String × CMap))) (l : List (Int × CMap)) :
    ∀ r : QuarterRecord, sortedMedalList r.q1 ∧ sortedMedalList r.q2 ∧
      sortedMedalList r.q3 ∧ sortedMedalList r.q4 →
    sortedMedalList (l.foldl (fun r q =>
        r.set q.1 (sortCounts sheetNames q.2 ((listGet q.1 sq).getD [])))
        r).q1 ∧
    sortedMedalList (l.foldl (fun r q =>
        r.set q.1 (sortCounts sheetNames q.2 ((listGet q.1 sq).getD [])))
        r).q2 ∧
    sortedMedalList (l.foldl (fun r q =>
        r.set q.1 (sortCounts sheetNames q.2 ((listGet q.1 sq).getD [])))
        r).q3 ∧
    sortedMedalList (l.foldl (fun r q =>
        r.set q.1 (sortCounts sheetNames q.2 ((listGet q.1 sq).getD [])))
        r).q4 := by
  induction l with
  | nil => intro r hr; simpa using hr
  | cons q qs ih =>
    intro r hr
    simp only [List.foldl_cons]
    exact ih _ (QuarterRecord.set_sorted r q.1 _ hr
      (sortCounts_sorted sheetNames q.2 _))

/-- **C3**: every medal list the calculator returns (`byYear`, each
`byQuarter` entry, each `byMonth` entry) contains only participants with at
least one nonzero medal count, and is sorted descending by the weighted
score `gold*3 + silver*2 + bronze`, ties broken by gold, then silver, then
bronze, all descending. -/
theorem fetchMedalTotalsBulk_sorted (parseDate : Cell → Option JSDate)
    (num : String → Option ℚ) (sheetNames : List String)
    (sheetsData : String → Option SheetBulkData)
    (year currentYear currentMonth : Int) :
    sortedTotals (fetchMedalTotalsBulk parseDate num sheetNames sheetsData
      year currentYear currentMonth) := by
  rw [fetchMedalTotalsBulk]
  by_cases h : monthsToFetch year currentYear currentMonth = 0
  · rw [if_pos h]
    exact ⟨sortedMedalList_nil, sortedMedalList_nil, sortedMedalList_nil,
      sortedMedalList_nil, sortedMedalList_nil,
      fun q hq => absurd hq (List.not_mem_nil q)⟩
  · rw [if_neg h]
    have hq := quarterFold_sorted sheetNames
      (aggregateSheets parseDate num sheetNames sheetsData year
        (monthsList (monthsToFetch year currentYear currentMonth))).bySheetByQuarter
      (aggregateSheets parseDate num sheetNames sheetsData year
        (monthsList (monthsToFetch year currentYear currentMonth))).byQuarter
      ⟨[], [], [], []⟩
      ⟨sortedMedalList_nil, sortedMedalList_nil, sortedMedalList_nil,
        sortedMedalList_nil⟩
    refine ⟨sortCounts_sorted _ _ _, hq.1, hq.2.1, hq.2.2.1, hq.2.2.2, ?_⟩
    intro q hq'
    rcases List.mem_map.mp hq' with ⟨q0, _, rfl⟩
    exact sortCounts_sorted _ _ _

/-- Witness for C3 at a concrete input. -/
theorem fetchMedalTotalsBulk_sorted_witness :
    sortedMedalList (fetchMedalTotalsBulk (fun _ => none) (fun _ => none)
      ["Push"] (fun _ => none) 2024 2025 10).byYear :=
  (fetchMedalTotalsBulk_sorted (fun _ => none) (fun _ => none) ["Push"]
    (fun _ => none) 2024 2025 10).1

/-! ### Bucket consistency of medal totals (C2) -/

/-- Select one counter of a `MedalCounts`. -/
def cCnt : Medal → MedalCounts → Nat
  | .gold, c => c.gold
  | .silver, c => c.silver
  | .bronze, c => c.bronze

/-- Select one counter of a `MedalCount` list entry. -/
def mcCnt : Medal → MedalCount → Nat
  | .gold, e => e.gold
  | .silver, e => e.silver
  | .bronze, e => e.bronze

/-- The count of medal type `t` credited to participant `name` by a medal
list (0 when the participant does not appear). -/
def listCnt (t : Medal) (name : String) (l : List MedalCount) : Nat :=
  match l.find? (fun e => decide (e.name = name)) with
  | some e => mcCnt t e
  | none => 0

/-- The count of medal type `t` for `name` inside one aggregation map. -/
def bucketCnt (t : Medal) (name : String) (cm : CMap) : Nat :=
  cCnt t ((listGet name cm).getD MedalCounts.zero)

/-- The total of `bucketCnt` over the buckets of a keyed aggregation map. -/
def bucketSum (t : Medal) (name : String) (l : List (Int × CMap)) : Nat :=
  (l.map (fun q => bucketCnt t name q.2)).sum

theorem listUpsert_cons [DecidableEq κ] (k : κ) (d : β) (f : β → β)
    (k' : κ) (v : β) (rest : List (κ × β)) :
    listUpsert k d f ((k', v) :: rest) =
      if k' = k then (k', f v) :: rest
      else (k', v) :: listUpsert k d f rest := rfl

theorem listGet_cons [DecidableEq κ] (q k' : κ) (v : β)
    (rest : List (κ × β)) :
    listGet q ((k', v) :: rest) =
      if k' = q then some v else listGet q rest := rfl

theorem listGet_listUpsert [DecidableEq κ] (q k : κ) (d : β) (f : β → β)
    (m : List (κ × β)) :
    listGet q (listUpsert k d f m) =
      if q = k then some (f ((listGet k m).getD d)) else listGet q m := by
  induction m with
  | nil =>
    by_cases h : q = k
    · subst h
      simp [listUpsert, listGet]
    · have h' : ¬ k = q := fun hh => h hh.symm
      simp [listUpsert, listGet, h, h']
  | cons kv rest ih =>
    obtain ⟨k', v⟩ := kv
    by_cases hk : k' = k
    · subst hk
      by_cases hq : q = k'
      · subst hq
        simp [listUpsert_cons, listGet_cons]
      · have hq' : ¬ k' = q := fun hh => hq hh.symm
        simp [listUpsert_cons, listGet_cons, hq, hq']
    · by_cases hq : q = k'
      · subst hq
        have hqk : ¬ q = k := hk
        simp [listUpsert_cons, listGet_cons, hk, hqk]
      · have hq' : ¬ k' = q := fun hh => hq hh.symm
        simp [listUpsert_cons, listGet_cons, hk, hq', ih]

theorem cCnt_zero (t : Medal) : cCnt t MedalCounts.zero = 0 := by
  cases t <;> rfl

theorem cCnt_addOne (t t' : Medal) (c : MedalCounts) :
    cCnt t (c.addOne t') = cCnt t c + (if t' = t then 1 else 0) := by
  cases t <;> cases t' <;> simp [cCnt, MedalCounts.addOne]

theorem bucketCnt_addMedal (t : Medal) (p : String) (m : CMap)
    (name : String) (t' : Medal) :
    bucketCnt t p (addMedal m name t') =
      bucketCnt t p m + (if p = name ∧ t' = t then 1 else 0) := by
  rw [bucketCnt, bucketCnt, addMedal, listGet_listUpsert]
  by_cases hp : p = name
  · subst hp
    simp [cCnt_addOne]
  · simp [hp]

theorem bucketCnt_nil (t : Medal) (p : String) : bucketCnt t p [] = 0 := by
  rw [bucketCnt]
  simp [listGet, cCnt_zero]

theorem bucketSum_listUpsert_addMedal (t : Medal) (p : String)
    (m : List (Int × CMap)) (k : Int) (name : String) (t' : Medal) :
    bucketSum t p (listUpsert k [] (fun cm => addMedal cm name t') m) =
      bucketSum t p m + (if p = name ∧ t' = t then 1 else 0) := by
  induction m with
  | nil =>
    simp only [listUpsert, bucketSum, List.map_cons, List.map_nil,
      List.sum_cons, List.sum_nil, bucketCnt_addMedal, bucketCnt_nil]
    omega
  | cons kv rest ih =>
    obtain ⟨k', cm⟩ := kv
    rw [listUpsert_cons]
    by_cases hk : k' = k
    · rw [if_pos hk]
      simp only [bucketSum, List.map_cons, List.sum_cons, bucketCnt_addMedal]
      omega
    · rw [if_neg hk]
      simp only [bucketSum, List.map_cons, List.sum_cons]
      simp only [bucketSum] at ih
      omega

theorem bucketSum_nmapAdd (t : Medal) (p : String) (m : List (Int × CMap))
    (k : Int) (name : String) (t' : Medal) :
    bucketSum t p (nmapAdd m k name t') =
      bucketSum t p m + (if p = name ∧ t' = t then 1 else 0) :=
  bucketSum_listUpsert_addMedal t p m k name t'

theorem bucketSum_nmapTouch (t : Medal) (p : String) (m : List (Int × CMap))
    (k : Int) : bucketSum t p (nmapTouch m k) = bucketSum t p m := by
  rw [nmapTouch]
  induction m with
  | nil =>
    simp only [listUpsert, bucketSum, List.map_cons, List.map_nil,
      List.sum_cons, List.sum_nil, bucketCnt_nil, id]
    omega
  | cons kv rest ih =>
    obtain ⟨k', cm⟩ := kv
    rw [listUpsert_cons]
    by_cases hk : k' = k
    · rw [if_pos hk]
      simp [bucketSum, id]
    · rw [if_neg hk]
      simp only [bucketSum, List.map_cons, List.sum_cons]
      simp only [bucketSum] at ih
      omega

theorem listUpsert_map_fst [DecidableEq κ] (k : κ) (d : β) (f : β → β)
    (m : List (κ × β)) :
    (listUpsert k d f m).map Prod.fst =
      if k ∈ m.map Prod.fst then m.map Prod.fst
      else m.map Prod.fst ++ [k] := by
  induction m with
  | nil => simp [listUpsert]
  | cons kv rest ih =>
    obtain ⟨k', v⟩ := kv
    rw [listUpsert_cons]
    by_cases hk : k' = k
    · subst hk
      simp
    · rw [if_neg hk]
      have hne : ¬ k = k' := fun hh => hk hh.symm
      simp only [List.map_cons, List.mem_cons, hne, false_or, ih]
      by_cases hmem : k ∈ rest.map Prod.fst
      · simp [hmem]
      · simp [hmem]

theorem listUpsert_keys_nodup [DecidableEq κ] (k : κ) (d : β) (f : β → β)
    (m : List (κ × β)) (h : (m.map Prod.fst).Nodup) :
    ((listUpsert k d f m).map Prod.fst).Nodup := by
  rw [listUpsert_map_fst]
  split_ifs with hmem
  · exact h
  · refine List.Nodup.append h (by simp) ?_
    intro a ha hb
    have : a = k := by simpa using hb
    subst this
    exact hmem ha

theorem listUpsert_forall_vals [DecidableEq κ] {P : β → Prop} (k : κ) (d : β)
    (f : β → β) (m : List (κ × β)) (hm : ∀ q ∈ m, P q.2)
    (hf : ∀ v, P v → P (f v)) (hfd : P (f d)) :
    ∀ q ∈ listUpsert k d f m, P q.2 := by
  induction m with
  | nil =>
    intro q hq
    have : q = (k, f d) := by simpa [listUpsert] using hq
    subst this
    exact hfd
  | cons kv rest ih =>
    obtain ⟨k', v⟩ := kv
    rw [listUpsert_cons]
    by_cases hk : k' = k
    · rw [if_pos hk]
      intro q hq
      rcases List.mem_cons.mp hq with rfl | hq'
      · exact hf v (hm (k', v) (by simp))
      · exact hm q (by simp [hq'])
    · rw [if_neg hk]
      intro q hq
      rcases List.mem_cons.mp hq with rfl | hq'
      · exact hm (k', v) (by simp)
      · exact ih (fun q' hq' => hm q' (by simp [hq'])) q hq'

/-- The invariant behind bucket consistency: along the aggregation, the year
map and every month map have duplicate-free keys, and participant `p`'s
count of medal `t` in the year map equals its summed count over the month
maps. -/
def MonthAgg (t : Medal) (p : String) (st : AggState) : Prop :=
  (st.year.map Prod.fst).Nodup ∧
  (∀ q ∈ st.byMonth, (q.2.map Prod.fst).Nodup) ∧
  bucketCnt t p st.year = bucketSum t p st.byMonth

theorem creditAll_MonthAgg (t : Medal) (p : String) (st : AggState)
    (sheet : String) (month : Int) (name : String) (t' : Medal)
    (h : MonthAgg t p st) :
    MonthAgg t p (creditAll st sheet month name t') := by
  obtain ⟨h1, h2, h3⟩ := h
  refine ⟨?_, ?_, ?_⟩
  · exact listUpsert_keys_nodup _ _ _ _ h1
  · exact listUpsert_forall_vals
      (P := fun cm : CMap => (cm.map Prod.fst).Nodup) _ _ _ _ h2
      (fun v hv => listUpsert_keys_nodup _ _ _ _ hv)
      (listUpsert_keys_nodup _ _ _ _ (by simp))
  · show bucketCnt t p (addMedal st.year name t') =
      bucketSum t p (nmapAdd st.byMonth month name t')
    rw [bucketCnt_addMedal, bucketSum_nmapAdd, h3]

theorem creditOpt_MonthAgg (t : Medal) (p : String) (st : AggState)
    (sheet : String) (month : Int) (who : Option String) (t' : Medal)
    (h : MonthAgg t p st) :
    MonthAgg t p (creditOpt st sheet month who t') := by
  cases who with
  | none => exact h
  | some nm => exact creditAll_MonthAgg t p st sheet month nm t' h

theorem processMonth_MonthAgg (t : Medal) (p : String)
    (parseDate : Cell → Option JSDate) (num : String → Option ℚ)
    (sheet : String) (data : SheetBulkData) (year month : Int)
    (st : AggState) (h : MonthAgg t p st) :
    MonthAgg t p (processMonth parseDate num sheet data year month st) := by
  obtain ⟨h1, h2, h3⟩ := h
  rw [processMonth]
  apply creditOpt_MonthAgg
  apply creditOpt_MonthAgg
  apply creditOpt_MonthAgg
  refine ⟨h1, ?_, ?_⟩
  · exact listUpsert_forall_vals
      (P := fun cm : CMap => (cm.map Prod.fst).Nodup) _ _ _ _ h2
      (fun v hv => hv) (by simp)
  · show bucketCnt t p st.year = bucketSum t p (nmapTouch st.byMonth month)
    rw [bucketSum_nmapTouch, h3]

theorem monthsFold_MonthAgg (t : Medal) (p : String)
    (parseDate : Cell → Option JSDate) (num : String → Option ℚ)
    (sheet : String) (data : SheetBulkData) (year : Int)
    (months : List Int) :
    ∀ st : AggState, MonthAgg t p st →
    MonthAgg t p (months.foldl (fun st month =>
      processMonth parseDate num sheet data year month st) st) := by
  induction months with
  | nil => intro st h; exact h
  | cons month rest ih =>
    intro st h
    exact ih _ (processMonth_MonthAgg t p parseDate num sheet data year month
      st h)

theorem aggregateSheets_MonthAgg (t : Medal) (p : String)
    (parseDate : Cell → Option JSDate) (num : String → Option ℚ)
    (sheetNames : List String) (sheetsData : String → Option SheetBulkData)
    (year : Int) (months : List Int) :
    MonthAgg t p (aggregateSheets parseDate num sheetNames sheetsData year
      months) := by
  rw [aggregateSheets]
  have hempty : MonthAgg t p AggState.empty := by
    refine ⟨by simp [AggState.empty], by simp [AggState.empty], ?_⟩
    show bucketCnt t p [] = bucketSum t p []
    rw [bucketCnt_nil]
    rfl
  suffices hgen : ∀ (sheets : List String) (st : AggState), MonthAgg t p st →
      MonthAgg t p (sheets.foldl (fun st sheet =>
        match sheetsData sheet with
        | none => st
        | some data => months.foldl (fun st month =>
            processMonth parseDate num sheet data year month st) st) st) by
    exact hgen sheetNames AggState.empty hempty
  intro sheets
  induction sheets with
  | nil => intro st h; exact h
  | cons sheet rest ih =>
    intro st h
    apply ih
    cases hdata : sheetsData sheet with
    | none => simpa [hdata] using h
    | some data =>
      simp only [hdata]
      exact monthsFold_MonthAgg t p parseDate num sheet data year months st h

theorem listGet_some_mem [DecidableEq κ] (k : κ) (v : β) (m : List (κ × β))
    (h : listGet k m = some v) : (k, v) ∈ m := by
  induction m with
  | nil => simp [listGet] at h
  | cons kv rest ih =>
    obtain ⟨k', v'⟩ := kv
    rw [listGet_cons] at h
    by_cases hk : k' = k
    · subst hk
      rw [if_pos rfl] at h
      have : v' = v := by simpa using h
      subst this
      simp
    · rw [if_neg hk] at h
      exact List.mem_cons_of_mem _ (ih h)

theorem listGet_none_iff [DecidableEq κ] (k : κ) (m : List (κ × β)) :
    listGet k m = none ↔ k ∉ m.map Prod.fst := by
  induction m with
  | nil => simp [listGet]
  | cons kv rest ih =>
    obtain ⟨k', v'⟩ := kv
    rw [listGet_cons]
    by_cases hk : k' = k
    · subst hk
      simp
    · simp only [if_neg hk, ih, List.map_cons, List.mem_cons]
      have : ¬ k = k' := fun hh => hk hh.symm
      simp [this]

theorem keys_nodup_val_unique (m : List (κ × β))
    (hnd : (m.map Prod.fst).Nodup) (k : κ) (v v' : β)
    (h1 : (k, v) ∈ m) (h2 : (k, v') ∈ m) : v = v' := by
  induction m with
  | nil => cases h1
  | cons kv rest ih =>
    obtain ⟨k0, v0⟩ := kv
    rw [List.map_cons, List.nodup_cons] at hnd
    obtain ⟨hnotin, hnd_tl⟩ := hnd
    rcases List.mem_cons.mp h1 with he1 | h1'
    · rcases List.mem_cons.mp h2 with he2 | h2'
      · injection he1 with hk1 hv1
        injection he2 with hk2 hv2
        rw [hv1, hv2]
      · exfalso
        injection he1 with hk1 _
        have hk2 : k ∈ rest.map Prod.fst := List.mem_map_of_mem Prod.fst h2'
        rw [hk1] at hk2
        exact hnotin hk2
    · rcases List.mem_cons.mp h2 with he2 | h2'
      · exfalso
        injection he2 with hk1 _
        have hk2 : k ∈ rest.map Prod.fst := List.mem_map_of_mem Prod.fst h1'
        rw [hk1] at hk2
        exact hnotin hk2
      · exact ih hnd_tl h1' h2'

theorem find?_name_eq (l : List MedalCount) (p : String)
    (hnd : (l.map (fun e => e.name)).Nodup) (e : MedalCount) (he : e ∈ l)
    (hep : e.name = p) :
    l.find? (fun e => decide (e.name = p)) = some e := by
  induction l with
  | nil => cases he
  | cons x xs ih =>
    rw [List.map_cons, List.nodup_cons] at hnd
    obtain ⟨hnotin, hnd_tl⟩ := hnd
    by_cases hx : x.name = p
    · rw [List.find?_cons_of_pos _ (by simpa using hx)]
      rcases List.mem_cons.mp he with rfl | he'
      · rfl
      · exfalso
        apply hnotin
        have : e.name ∈ xs.map (fun e => e.name) :=
          List.mem_map_of_mem _ he'
        rw [hep, ← hx] at this
        exact this
    · rw [List.find?_cons_of_neg _ (by simpa using hx)]
      rcases List.mem_cons.mp he with rfl | he'
      · exact absurd hep hx
      · exact ih hnd_tl he'

/-- Reading one participant's count from a `sortCounts` output agrees with
the underlying aggregation map (whose keys are duplicate-free). -/
theorem listCnt_sortCounts (t : Medal) (p : String) (sheetNames : List String)
    (entries : CMap) (aggs : List (String × CMap))
    (hnd : (entries.map Prod.fst).Nodup) :
    listCnt t p (sortCounts sheetNames entries aggs) =
      bucketCnt t p entries := by
  have hsc : sortCounts sheetNames entries aggs =
      stableSortBy medalBefore
        ((entries.map (toMedalCount sheetNames aggs)).filter
          (fun e => decide (0 < e.gold) || decide (0 < e.silver) ||
            decide (0 < e.bronze))) := rfl
  have hperm := stableSortBy_perm medalBefore
    ((entries.map (toMedalCount sheetNames aggs)).filter
      (fun e => decide (0 < e.gold) || decide (0 < e.silver) ||
        decide (0 < e.bronze)))
  have hmapped : ((entries.map (toMedalCount sheetNames aggs)).map
      (fun e => e.name)) = entries.map Prod.fst := by
    rw [List.map_map]
    rfl
  have hnd_f : (((entries.map (toMedalCount sheetNames aggs)).filter
      (fun e => decide (0 < e.gold) || decide (0 < e.silver) ||
        decide (0 < e.bronze))).map (fun e => e.name)).Nodup := by
    refine List.Nodup.sublist ?_ (hmapped ▸ hnd)
    exact (List.filter_sublist _).map _
  have hnd_s : ((sortCounts sheetNames entries aggs).map
      (fun e => e.name)).Nodup := by
    rw [hsc]
    exact ((hperm.map _).nodup_iff).mpr hnd_f
  cases hg : listGet p entries with
  | none =>
    have hnotin : p ∉ entries.map Prod.fst := (listGet_none_iff p entries).mp hg
    have hnone : ∀ e ∈ sortCounts sheetNames entries aggs, e.name ≠ p := by
      intro e he hname
      rw [hsc] at he
      have hef := hperm.mem_iff.mp he
      have hem := List.mem_of_mem_filter hef
      rcases List.mem_map.mp hem with ⟨pr, hpr, rfl⟩
      exact hnotin (hname ▸ List.mem_map_of_mem Prod.fst hpr)
    rw [listCnt, List.find?_eq_none.mpr
      (fun e he => by simpa using hnone e he)]
    rw [bucketCnt, hg]
    simp [cCnt_zero]
  | some c =>
    have hmem : (p, c) ∈ entries := listGet_some_mem p c entries hg
    by_cases hz : 0 < c.gold ∨ 0 < c.silver ∨ 0 < c.bronze
    · have hfmem : toMedalCount sheetNames aggs (p, c) ∈
          ((entries.map (toMedalCount sheetNames aggs)).filter
            (fun e => decide (0 < e.gold) || decide (0 < e.silver) ||
              decide (0 < e.bronze))) := by
        refine List.mem_filter.mpr ⟨List.mem_map_of_mem _ hmem, ?_⟩
        simp only [toMedalCount, Bool.or_eq_true, decide_eq_true_eq]
        tauto
      have hsmem : toMedalCount sheetNames aggs (p, c) ∈
          sortCounts sheetNames entries aggs := by
        rw [hsc]
        exact hperm.mem_iff.mpr hfmem
      rw [listCnt, find?_name_eq _ p hnd_s _ hsmem rfl]
      rw [bucketCnt, hg]
      cases t <;> rfl
    · have hc0 : c.gold = 0 ∧ c.silver = 0 ∧ c.bronze = 0 := by
        push_neg at hz
        omega
      have hnone : ∀ e ∈ sortCounts sheetNames entries aggs, e.name ≠ p := by
        intro e he hname
        rw [hsc] at he
        have hef := hperm.mem_iff.mp he
        have hem := List.mem_of_mem_filter hef
        rcases List.mem_map.mp hem with ⟨pr, hpr, rfl⟩
        have hpr1 : pr.1 = p := hname
        have hpr2 : pr.2 = c := by
          refine keys_nodup_val_unique entries hnd p pr.2 c ?_ hmem
          have : pr = (p, pr.2) := by
            rw [← hpr1]
          exact this ▸ hpr
        have hpred := List.of_mem_filter hef
        simp only [toMedalCount, Bool.or_eq_true, decide_eq_true_eq,
          hpr2] at hpred
        omega
      rw [listCnt, List.find?_eq_none.mpr
        (fun e he => by simpa using hnone e he)]
      rw [bucketCnt, hg]
      cases t <;> simp [cCnt] <;> omega

/-- **C2**: for every computed medal structure and every participant, the
year-level count of each medal type equals the sum of that participant's
counts of the same type over the month buckets that were computed. -/
theorem fetchMedalTotalsBulk_bucket_consistency
    (parseDate : Cell → Option JSDate) (num : String → Option ℚ)
    (sheetNames : List String) (sheetsData : String → Option SheetBulkData)
    (year currentYear currentMonth : Int) (t : Medal) (p : String) :
    listCnt t p (fetchMedalTotalsBulk parseDate num sheetNames sheetsData
        year currentYear currentMonth).byYear =
      ((fetchMedalTotalsBulk parseDate num sheetNames sheetsData year
          currentYear currentMonth).byMonth.map
        (fun q => listCnt t p q.2)).sum := by
  rw [fetchMedalTotalsBulk]
  by_cases h : monthsToFetch year currentYear currentMonth = 0
  · rw [if_pos h]
    rfl
  · rw [if_neg h]
    obtain ⟨hndY, hndM, hsum⟩ := aggregateSheets_MonthAgg t p parseDate num
      sheetNames sheetsData year
      (monthsList (monthsToFetch year currentYear currentMonth))
    simp only []
    rw [listCnt_sortCounts t p _ _ _ hndY, List.map_map]
    have hcongr : ∀ q ∈ (aggregateSheets parseDate num sheetNames sheetsData
        year (monthsList (monthsToFetch year currentYear
          currentMonth))).byMonth,
        ((fun q => listCnt t p q.2) ∘ (fun q =>
          (q.1, sortCounts sheetNames q.2
            ((listGet q.1 (aggregateSheets parseDate num sheetNames
              sheetsData year (monthsList (monthsToFetch year currentYear
                currentMonth))).bySheetByMonth).getD [])))) q =
          bucketCnt t p q.2 := by
      intro q hq
      exact listCnt_sortCounts t p sheetNames q.2 _ (hndM q hq)
    rw [List.map_congr_left hcongr]
    exact hsum

/-! ### Request supersession (C4)

`useMedalTotals.loadTotals` (the medal-totals hook) guards every commit to
the user-visible state with `if (thisRunId !== runIdRef.current) return`
(lines 61, 76, 89 and 98 of the hook).  The single-threaded event loop is
modelled as a trace of events: `start` is the synchronous prefix of an
invocation (`const thisRunId = ++runIdRef.current`, line 54), and
`complete t v` is an invocation with generation token `t` reaching a commit
point with result `v` (a success or an error value).  -/

/-- The controller state: `runId` models `runIdRef.current`, `observed` the
last value committed to the user-visible state (`setTotals`/`setError`). -/
structure CtrlState (τ : Type) where
  runId : Nat
  observed : Option τ
deriving DecidableEq, Repr

/-- One scheduling event for a logical query. -/
inductive CtrlEvent (τ : Type)
  | start
  | complete (token : Nat) (v : τ)

/-- The transition: a `start` increments the generation counter (the started
invocation's token is the new counter value); a `complete` commits its value
only when its token still equals the counter. -/
def ctrlStep (st : CtrlState τ) : CtrlEvent τ → CtrlState τ
  | .start => { st with runId := st.runId + 1 }
  | .complete t v => if t = st.runId then { st with observed := some v } else st

def ctrlRun (st : CtrlState τ) (es : List (CtrlEvent τ)) : CtrlState τ :=
  es.foldl ctrlStep st

def ctrlInit : CtrlState τ := ⟨0, none⟩

theorem ctrlStep_runId_le (st : CtrlState τ) (e : CtrlEvent τ) :
    st.runId ≤ (ctrlStep st e).runId := by
  cases e with
  | start => exact Nat.le_succ _
  | complete t v =>
    rw [ctrlStep]
    split_ifs <;> exact Nat.le_refl _

theorem ctrlRun_runId_le (st : CtrlState τ) (es : List (CtrlEvent τ)) :
    st.runId ≤ (ctrlRun st es).runId := by
  induction es generalizing st with
  | nil => exact Nat.le_refl _
  | cons e rest ih =>
    exact Nat.le_trans (ctrlStep_runId_le st e) (ih (ctrlStep st e))

theorem ctrlRun_runId_lt_of_start (st : CtrlState τ)
    (es : List (CtrlEvent τ)) (h : CtrlEvent.start ∈ es) :
    st.runId < (ctrlRun st es).runId := by
  induction es generalizing st with
  | nil => cases h
  | cons e rest ih =>
    rcases List.mem_cons.mp h with rfl | h'
    · have h1 : st.runId < (ctrlStep st CtrlEvent.start).runId :=
        Nat.lt_succ_self _
      exact Nat.lt_of_lt_of_le h1
        (ctrlRun_runId_le (ctrlStep st CtrlEvent.start) rest)
    · exact Nat.lt_of_le_of_lt (ctrlStep_runId_le st e) (ih _ h')

theorem ctrlRun_runId_const_of_no_start (st : CtrlState τ)
    (es : List (CtrlEvent τ)) (h : CtrlEvent.start ∉ es) :
    (ctrlRun st es).runId = st.runId := by
  induction es generalizing st with
  | nil => rfl
  | cons e rest ih =>
    cases e with
    | start => exact absurd (by simp) h
    | complete t v =>
      have hrest : CtrlEvent.start ∉ rest := fun hh => h (by simp [hh])
      rw [ctrlRun, List.foldl_cons, ctrlStep]
      split_ifs <;> exact ih _ hrest

/-- **C4**: an invocation started after prefix `es₁` receives the token
`t = runId` current at its start.  (a) If any further invocation starts
before it completes, its completion — result or error alike — is a no-op on
the state: it is silently discarded.  (b) If no further invocation has
started, its completion commits its value.  (c) In particular, for two
overlapping invocations the second's value is the one observed, whichever
completion order the event loop produces. -/
theorem loadTotals_supersession (τ : Type) (es₁ es₂ : List (CtrlEvent τ))
    (v : τ) :
    ((CtrlEvent.start ∈ es₂) →
      ctrlRun (ctrlInit (τ := τ)) (es₁ ++ CtrlEvent.start :: es₂ ++
          [CtrlEvent.complete (ctrlRun (ctrlInit (τ := τ))
            (es₁ ++ [CtrlEvent.start])).runId v]) =
        ctrlRun (ctrlInit (τ := τ)) (es₁ ++ CtrlEvent.start :: es₂)) ∧
    ((CtrlEvent.start ∉ es₂) →
      (ctrlRun (ctrlInit (τ := τ)) (es₁ ++ CtrlEvent.start :: es₂ ++
          [CtrlEvent.complete (ctrlRun (ctrlInit (τ := τ))
            (es₁ ++ [CtrlEvent.start])).runId v])).observed = some v) ∧
    (∀ v₁ v₂ : τ,
      (ctrlRun (ctrlInit (τ := τ)) [CtrlEvent.start, CtrlEvent.start,
        CtrlEvent.complete 2 v₂, CtrlEvent.complete 1 v₁]).observed =
          some v₂ ∧
      (ctrlRun (ctrlInit (τ := τ)) [CtrlEvent.start, CtrlEvent.start,
        CtrlEvent.complete 1 v₁, CtrlEvent.complete 2 v₂]).observed =
          some v₂) := by
  have hsplit : ∀ (l₁ l₂ : List (CtrlEvent τ)) (st : CtrlState τ),
      ctrlRun st (l₁ ++ l₂) = ctrlRun (ctrlRun st l₁) l₂ := by
    intro l₁ l₂ st
    rw [ctrlRun, ctrlRun, ctrlRun, List.foldl_append]
  have hmid : ∀ (st : CtrlState τ) (e : CtrlEvent τ),
      ctrlRun st [e] = ctrlStep st e := fun _ _ => rfl
  have he1 : es₁ ++ CtrlEvent.start :: es₂ ++
      [CtrlEvent.complete (ctrlRun (ctrlInit (τ := τ))
        (es₁ ++ [CtrlEvent.start])).runId v] =
      (es₁ ++ CtrlEvent.start :: es₂) ++
        [CtrlEvent.complete (ctrlRun (ctrlInit (τ := τ))
          (es₁ ++ [CtrlEvent.start])).runId v] := by
    simp
  have he2 : es₁ ++ CtrlEvent.start :: es₂ =
      (es₁ ++ [CtrlEvent.start]) ++ es₂ := by simp
  refine ⟨?_, ?_, ?_⟩
  · intro hstart
    rw [he1, hsplit, hmid, ctrlStep]
    rw [if_neg ?_]
    have hlt : (ctrlRun (ctrlInit (τ := τ))
        (es₁ ++ [CtrlEvent.start])).runId <
        (ctrlRun (ctrlInit (τ := τ)) (es₁ ++ CtrlEvent.start :: es₂)).runId := by
      have h3 := ctrlRun_runId_lt_of_start
        (ctrlRun (ctrlInit (τ := τ)) (es₁ ++ [CtrlEvent.start])) es₂ hstart
      rw [← hsplit] at h3
      rw [he2]
      exact h3
    omega
  · intro hstart
    rw [he1, hsplit, hmid, ctrlStep]
    have heq : (ctrlRun (ctrlInit (τ := τ))
        (es₁ ++ CtrlEvent.start :: es₂)).runId =
        (ctrlRun (ctrlInit (τ := τ)) (es₁ ++ [CtrlEvent.start])).runId := by
      have h3 := ctrlRun_runId_const_of_no_start
        (ctrlRun (ctrlInit (τ := τ)) (es₁ ++ [CtrlEvent.start])) es₂ hstart
      rw [← hsplit] at h3
      rw [he2]
      exact h3
    rw [if_pos heq.symm]
  · intro v₁ v₂
    constructor <;> rfl

/-- Witness for C4: with one pending invocation (token 1), a second start
supersedes it — its completion with value 5 is discarded — while with no
second start its completion commits. -/
theorem loadTotals_supersession_witness :
    (ctrlRun (ctrlInit (τ := Nat)) ([] ++ CtrlEvent.start ::
        [CtrlEvent.start] ++ [CtrlEvent.complete (ctrlRun
          (ctrlInit (τ := Nat)) ([] ++ [CtrlEvent.start])).runId 5]) =
      ctrlRun (ctrlInit (τ := Nat)) ([] ++ CtrlEvent.start ::
        [CtrlEvent.start])) ∧
    (ctrlRun (ctrlInit (τ := Nat)) ([] ++ CtrlEvent.start :: [] ++
        [CtrlEvent.complete (ctrlRun (ctrlInit (τ := Nat))
          ([] ++ [CtrlEvent.start])).runId 7])).observed = some 7 :=
  ⟨(loadTotals_supersession Nat [] [CtrlEvent.start] 5).1 (by simp),
   (loadTotals_supersession Nat [] [] 7).2.1 (by simp)⟩

/-! ### Forced refresh and the cache tiers (C7) -/

/-- The two cache tiers of the medal-totals flow for one year key: `mem` is
the module-level `totalsCache` entry, `db` the IndexedDB record.  The
IndexedDB cache module exposes only `getCachedTotals` and
`setCachedTotals`; it has no delete operation. -/
structure TotalsCacheState (τ : Type) where
  mem : Option τ
  db : Option τ
deriving DecidableEq, Repr

/-- Externally visible effects of one `loadTotals` invocation. -/
structure LoadTrace where
  remoteReads : Nat
  dbReads : Nat
  dbWrites : Nat
  dbDeletes : Nat
deriving DecidableEq, Repr

/-- Embedding of `loadTotals` (the medal-totals hook, lines 44-99) as a state
transformer for one year key, run to completion without supersession.
`remote` models the outcome of `fetchMedalTotalsBulk` (`Except.error` = a
rejected fetch).  In source order: `if (forceRefresh)
totalsCache.delete(year)`; serve `cachedNow` when present and not forcing;
`const dbCached = forceRefresh ? null : await getCachedTotals(year)`; on a
hit promote it into `totalsCache` and serve; otherwise fetch remotely and,
on success, write `totalsCache` and IndexedDB (`setCachedTotals`); on error
nothing is cached.  No path issues an IndexedDB delete, so every trace has
`dbDeletes = 0`. -/
def loadTotalsModel (st : TotalsCacheState τ) (forceRefresh : Bool)
    (remote : Except String τ) :
    TotalsCacheState τ × Except String τ × LoadTrace :=
  let st1 : TotalsCacheState τ :=
    if forceRefresh then { st with mem := none } else st
  match st1.mem, forceRefresh with
  | some c, false => (st1, Except.ok c, ⟨0, 0, 0, 0⟩)
  | _, _ =>
    let dbCached : Option τ := if forceRefresh then none else st1.db
    let dbReads : Nat := if forceRefresh then 0 else 1
    match dbCached with
    | some c => ({ st1 with mem := some c }, Except.ok c, ⟨0, dbReads, 0, 0⟩)
    | none =>
      match remote with
      | Except.ok d => (⟨some d, some d⟩, Except.ok d, ⟨1, dbReads, 1, 0⟩)
      | Except.error e => (st1, Except.error e, ⟨1, dbReads, 0, 0⟩)

/-- `Map.delete`. -/
def listDelete [DecidableEq κ] (k : κ) : List (κ × β) → List (κ × β)
  | [] => []
  | (k', v) :: rest => if k' = k then rest else (k', v) :: listDelete k rest

/-- `Map.set` with a plain value. -/
def listSet [DecidableEq κ] (k : κ) (v : β) (m : List (κ × β)) :
    List (κ × β) :=
  listUpsert k v (fun _ => v) m

/-- `refresh` of `useLeaderboardData` (lines 241-244) followed by the
effect re-run for the same key (lines 246-351): delete the cache entry,
then on a miss fetch once (`computed` models the fetched leaderboard) and
write the cache.  The second component counts remote fetch cycles. -/
def leaderboardRefreshModel (cache : List (String × List LeaderboardEntry))
    (key : String) (computed : List LeaderboardEntry) :
    List (String × List LeaderboardEntry) × Nat :=
  let cache1 := listDelete key cache
  match listGet key cache1 with
  | some _ => (cache1, 0)
  | none => (listSet key computed cache1, 1)

theorem listGet_listDelete_self [DecidableEq κ] (k : κ) (m : List (κ × β))
    (hnd : (m.map Prod.fst).Nodup) : listGet k (listDelete k m) = none := by
  induction m with
  | nil => rfl
  | cons kv rest ih =>
    obtain ⟨k', v⟩ := kv
    rw [List.map_cons, List.nodup_cons] at hnd
    rw [listDelete]
    by_cases hk : k' = k
    · rw [if_pos hk]
      rw [listGet_none_iff]
      rw [← hk]
      exact hnd.1
    · rw [if_neg hk, listGet_cons, if_neg hk]
      exact ih hnd.2

/-- **C7 counterexample**: the claim asserts a forced refresh deletes the
cross-session entry from persistent storage before recomputation.  On the
state where the memory tier holds 1 and the persistent tier holds 2, a
forced refresh whose recomputation fails performs the remote read
(`remoteReads = 1`) yet issues no persistent-store delete
(`dbDeletes = 0`), and the stale persistent entry 2 survives the
invocation — it would be gone had it been deleted before recomputation. -/
theorem loadTotals_forceRefresh_counterexample :
    (loadTotalsModel (⟨some 1, some 2⟩ : TotalsCacheState Nat) true
      (Except.error "fetch failed")).2.2.remoteReads = 1 ∧
    (loadTotalsModel (⟨some 1, some 2⟩ : TotalsCacheState Nat) true
      (Except.error "fetch failed")).2.2.dbDeletes = 0 ∧
    (loadTotalsModel (⟨some 1, some 2⟩ : TotalsCacheState Nat) true
      (Except.error "fetch failed")).1.db = some 2 ∧
    some 2 ≠ (none : Option Nat) :=
  ⟨rfl, rfl, rfl, by simp⟩

/-- **C7 (amended)**: a forced refresh deletes the entry from the
process-memory tier and bypasses (does not read and does not delete) the
cross-session persistent tier, whose entry is only replaced by the cache
write after a successful recomputation; the reads within the invocation are
thus full misses and exactly one remote read cycle and one persistent cache
write occur, even when both tiers held prior values.  Likewise the
leaderboard refresh action deletes its process-memory entry, so the re-run
effect misses and performs exactly one fetch cycle and one cache write. -/
theorem loadTotals_forceRefresh_spec (τ : Type) (st : TotalsCacheState τ)
    (d : τ) (cache : List (String × List LeaderboardEntry)) (key : String)
    (computed : List LeaderboardEntry)
    (hnd : (cache.map Prod.fst).Nodup) :
    loadTotalsModel st true (Except.ok d) =
      (⟨some d, some d⟩, Except.ok d, ⟨1, 0, 1, 0⟩) ∧
    leaderboardRefreshModel cache key computed =
      (listSet key computed (listDelete key cache), 1) := by
  constructor
  · rfl
  · rw [leaderboardRefreshModel]
    simp only [listGet_listDelete_self key cache hnd]

/-- Witness for C7 (amended) at concrete inputs. -/
theorem loadTotals_forceRefresh_spec_witness :
    loadTotalsModel (⟨some 1, some 2⟩ : TotalsCacheState Nat) true
        (Except.ok 7) =
      (⟨some 7, some 7⟩, Except.ok 7, ⟨1, 0, 1, 0⟩) ∧
    leaderboardRefreshModel [("k", [⟨1, "A", 3⟩])] "k" [⟨1, "B", 5⟩] =
      (listSet "k" [⟨1, "B", 5⟩] (listDelete "k" [("k", [⟨1, "A", 3⟩])]),
        1) :=
  loadTotals_forceRefresh_spec Nat ⟨some 1, some 2⟩ 7
    [("k", [⟨1, "A", 3⟩])] "k" [⟨1, "B", 5⟩] (by simp)

/-! ### Day-of-week averages on the medals page (C8) -/

/-- `DateValueRow` (src/hooks/useNameData.ts line 10). -/
structure DateValueRow where
  date : String
  value : String
deriving DecidableEq, Repr

/-- `filterByDate` (src/hooks/useNameData.ts lines 41-59): filter rows by
optional year / quarter / month (`none` models the empty-string "no filter"
value).  `parseDate` abstracts `parseDateCell` plus the local calendar
accessors. -/
def filterByDate (parseDate : Cell → Option JSDate)
    (rows : List DateValueRow)
    (filterYear filterQuarter filterMonth : Option Int) :
    List DateValueRow :=
  if filterYear = none ∧ filterQuarter = none ∧ filterMonth = none then rows
  else rows.filter (fun row =>
    match parseDate (some row.date) with
    | none => false
    | some d =>
      (match filterYear with
        | some fy => decide (d.fullYear = fy)
        | none => true) &&
      (match filterQuarter with
        | some fq => decide (quarterOf (d.monthIdx + 1) = fq)
        | none => true) &&
      (match filterMonth with
        | some fm => decide (d.monthIdx + 1 = fm)
        | none => true))

/-- The numeric value one row contributes
(`row.value.trim() === '' || Number.isNaN(n) ? 0 : n`, MedalsPage lines
1447-1448). -/
def rowDayValue (num : String → Option ℚ) (row : DateValueRow) : ℚ :=
  if jsTrim row.value = "" then 0
  else
    match num row.value with
    | none => 0
    | some n => n

/-- The `reduce` of MedalsPage lines 1441-1457: per-weekday sums and
contribution counts over rows with a parseable date. -/
def weekdayAgg (parseDate : Cell → Option JSDate) (num : String → Option ℚ)
    (rows : List DateValueRow) : (Int → ℚ) × (Int → Nat) :=
  rows.foldl (fun acc row =>
    match parseDate (some row.date) with
    | none => acc
    | some d =>
      (fun i => if i = d.weekday then acc.1 i + rowDayValue num row
        else acc.1 i,
       fun i => if i = d.weekday then acc.2 i + 1 else acc.2 i))
    (fun _ => 0, fun _ => 0)

/-- `barDataAverage` (MedalsPage lines 1439-1461): filter to the current
month-of-year across all years, then divide each weekday's sum by its
contribution count, defaulting to 0. -/
def barDataAverage (parseDate : Cell → Option JSDate)
    (num : String → Option ℚ) (nameData : List DateValueRow)
    (currentMonth : Int) (i : Int) : ℚ :=
  let filtered := filterByDate parseDate nameData none none
    (some currentMonth)
  let agg := weekdayAgg parseDate num filtered
  if 0 < agg.2 i then agg.1 i / (agg.2 i : ℚ) else 0

/-- Follows the claim's words, for comparison with the code: the number of
distinct years among the rows contributing to weekday bucket `i` of the
selected month-of-year. -/
def contributingYearCount (parseDate : Cell → Option JSDate)
    (nameData : List DateValueRow) (currentMonth : Int) (i : Int) : Nat :=
  (((((filterByDate parseDate nameData none none
        (some currentMonth)).filterMap
      (fun row => parseDate (some row.date))).filter
    (fun d => decide (d.weekday = i))).map (fun d => d.fullYear)).dedup).length

/-- **C8 counterexample**: two Monday rows of January 2024 (values 4 and 2,
one observed year).  The claim's value — the weekday sum divided by the
count of contributing years — is `6 / 1 = 6`, but the code divides by the
count of contributing rows and returns 3. -/
theorem barDataAverage_counterexample :
    barDataAverage
        (fun c => if c = some "2024-01-01" then some ⟨2024, 0, 1, 1⟩
          else if c = some "2024-01-08" then some ⟨2024, 0, 8, 1⟩ else none)
        (fun s => if s = "4" then some 4 else if s = "2" then some 2
          else none)
        [⟨"2024-01-01", "4"⟩, ⟨"2024-01-08", "2"⟩] 1 1 = 3 ∧
    (weekdayAgg
        (fun c => if c = some "2024-01-01" then some ⟨2024, 0, 1, 1⟩
          else if c = some "2024-01-08" then some ⟨2024, 0, 8, 1⟩ else none)
        (fun s => if s = "4" then some 4 else if s = "2" then some 2
          else none)
        (filterByDate
          (fun c => if c = some "2024-01-01" then some ⟨2024, 0, 1, 1⟩
            else if c = some "2024-01-08" then some ⟨2024, 0, 8, 1⟩
            else none)
          [⟨"2024-01-01", "4"⟩, ⟨"2024-01-08", "2"⟩] none none
          (some 1))).1 1 = 6 ∧
    contributingYearCount
        (fun c => if c = some "2024-01-01" then some ⟨2024, 0, 1, 1⟩
          else if c = some "2024-01-08" then some ⟨2024, 0, 8, 1⟩ else none)
        [⟨"2024-01-01", "4"⟩, ⟨"2024-01-08", "2"⟩] 1 1 = 1 ∧
    (3 : ℚ) ≠ 6 / 1 := by
  refine ⟨?_, ?_, by decide, by norm_num⟩
  · simp +decide [barDataAverage, weekdayAgg, filterByDate, rowDayValue,
      jsTrim]
    norm_num
  · simp +decide [weekdayAgg, filterByDate, rowDayValue, jsTrim]
    norm_num

theorem weekdayAgg_spec (parseDate : Cell → Option JSDate)
    (num : String → Option ℚ) (rows : List DateValueRow) (i : Int) :
    (weekdayAgg parseDate num rows).1 i =
      ((rows.filter (fun row =>
        match parseDate (some row.date) with
        | some d => decide (d.weekday = i)
        | none => false)).map (rowDayValue num)).sum ∧
    (weekdayAgg parseDate num rows).2 i =
      (rows.filter (fun row =>
        match parseDate (some row.date) with
        | some d => decide (d.weekday = i)
        | none => false)).length := by
  suffices hgen : ∀ (l : List DateValueRow) (acc : (Int → ℚ) × (Int → Nat)),
      (l.foldl (fun acc row =>
        match parseDate (some row.date) with
        | none => acc
        | some d =>
          (fun i => if i = d.weekday then acc.1 i + rowDayValue num row
            else acc.1 i,
           fun i => if i = d.weekday then acc.2 i + 1 else acc.2 i)) acc).1 i
        = acc.1 i + ((l.filter (fun row =>
            match parseDate (some row.date) with
            | some d => decide (d.weekday = i)
            | none => false)).map (rowDayValue num)).sum ∧
      (l.foldl (fun acc row =>
        match parseDate (some row.date) with
        | none => acc
        | some d =>
          (fun i => if i = d.weekday then acc.1 i + rowDayValue num row
            else acc.1 i,
           fun i => if i = d.weekday then acc.2 i + 1 else acc.2 i)) acc).2 i
        = acc.2 i + (l.filter (fun row =>
            match parseDate (some row.date) with
            | some d => decide (d.weekday = i)
            | none => false)).length by
    have h := hgen rows (fun _ => 0, fun _ => 0)
    rw [weekdayAgg]
    constructor
    · rw [h.1]
      simp
    · rw [h.2]
      simp
  intro l
  induction l with
  | nil =>
    intro acc
    simp
  | cons row rest ih =>
    intro acc
    rw [List.foldl_cons, List.filter_cons]
    cases hpd : parseDate (some row.date) with
    | none =>
      simp only [hpd]
      exact ih acc
    | some d =>
      simp only [hpd]
      by_cases hw : d.weekday = i
      · have hi : i = d.weekday := hw.symm
        rw [if_pos (by simp [hw])]
        obtain ⟨ih1, ih2⟩ := ih
          ((fun j => if j = d.weekday then acc.1 j + rowDayValue num row
            else acc.1 j,
            fun j => if j = d.weekday then acc.2 j + 1 else acc.2 j))
        constructor
        · rw [ih1]
          simp only [List.map_cons, List.sum_cons, if_pos hi]
          ring
        · rw [ih2]
          simp only [List.length_cons, if_pos hi]
          omega
      · rw [if_neg (by simp [hw])]
        obtain ⟨ih1, ih2⟩ := ih
          ((fun j => if j = d.weekday then acc.1 j + rowDayValue num row
            else acc.1 j,
            fun j => if j = d.weekday then acc.2 j + 1 else acc.2 j))
        have hni : ¬ i = d.weekday := fun hh => hw hh.symm
        constructor
        · rw [ih1]
          simp only [if_neg hni]
        · rw [ih2]
          simp only [if_neg hni]

/-- **C8 (amended)**: in the "this month-of-year averaged across all
observed years" variant, each weekday bucket's value equals the sum of that
weekday's row values across all observed years divided by the number of
contributing rows (parseable-date occurrences of that weekday) — not by the
number of contributing years — defaulting to 0 when no row contributes. -/
theorem barDataAverage_spec (parseDate : Cell → Option JSDate)
    (num : String → Option ℚ) (nameData : List DateValueRow)
    (currentMonth : Int) (i : Int) :
    barDataAverage parseDate num nameData currentMonth i =
      (if 0 < ((filterByDate parseDate nameData none none
            (some currentMonth)).filter (fun row =>
          match parseDate (some row.date) with
          | some d => decide (d.weekday = i)
          | none => false)).length
       then (((filterByDate parseDate nameData none none
            (some currentMonth)).filter (fun row =>
          match parseDate (some row.date) with
          | some d => decide (d.weekday = i)
          | none => false)).map (rowDayValue num)).sum /
          ((((filterByDate parseDate nameData none none
            (some currentMonth)).filter (fun row =>
          match parseDate (some row.date) with
          | some d => decide (d.weekday = i)
          | none => false)).length : Nat) : ℚ)
       else 0) := by
  obtain ⟨h1, h2⟩ := weekdayAgg_spec parseDate num
    (filterByDate parseDate nameData none none (some currentMonth)) i
  rw [barDataAverage]
  rw [h1, h2]

/-! ### The "today" boundary scans (C9) -/

/-- The scan predicate used by both fetch paths:
`parsed && isSameCalendarDay(parsed, today)`. -/
def isTodayCell (parseDate : Cell → Option JSDate) (today : JSDate)
    (c : Cell) : Bool :=
  match parseDate c with
  | some d => isSameCalendarDay d today
  | none => false

/-- The bulk variant's in-memory scan (`fetchAllSheetsBulk`, bulk-fetch
module lines 87-104): `stopAtIndex` starts at the row count and is
reassigned to `i + 1` at every row `i` dated today, so it ends just past
the **last** such row. -/
def bulkStopAtIndex (parseDate : Cell → Option JSDate) (today : JSDate)
    (dataRows : List Cell) : Nat :=
  (List.range dataRows.length).foldl (fun stop i =>
    if isTodayCell parseDate today (dataRows.getD i none) then i + 1
    else stop) dataRows.length

/-- The chunked Row Fetcher's scan (src/hooks/useNameData.ts lines 154-158,
identical in useLeaderboardData): `findIndex` locates the **first** row
dated today; `stop = todayIndex >= 0 ? todayIndex + 1 :
allDateRows.length`. -/
def chunkedStopIndex (parseDate : Cell → Option JSDate) (today : JSDate)
    (rows : List Cell) : Nat :=
  match rows.findIdx? (isTodayCell parseDate today) with
  | some i => i + 1
  | none => rows.length

/-- **C9 counterexample**: on a corpus with two rows both dated today, the
bulk scan stops after the last one (cutoff 2) while the chunked scan stops
after the first (cutoff 1), so the two fetch paths truncate the corpus
differently. -/
theorem todayScan_counterexample :
    bulkStopAtIndex
        (fun c => if c = some "T" then some ⟨2025, 9, 11, 6⟩ else none)
        ⟨2025, 9, 11, 6⟩ [some "T", some "T"] = 2 ∧
    chunkedStopIndex
        (fun c => if c = some "T" then some ⟨2025, 9, 11, 6⟩ else none)
        ⟨2025, 9, 11, 6⟩ [some "T", some "T"] = 1 ∧
    (2 : Nat) ≠ 1 := by
  refine ⟨by decide, by decide, by decide⟩

theorem bulk_foldl_no_match (P : Nat → Bool) (n : Nat) (init : Nat)
    (hp : ∀ i < n, P i = false) :
    (List.range n).foldl (fun stop i => if P i then i + 1 else stop) init
      = init := by
  induction n with
  | zero => rfl
  | succ n ih =>
    rw [List.range_succ, List.foldl_append, List.foldl_cons, List.foldl_nil]
    rw [hp n (by omega)]
    simp only [Bool.false_eq_true, if_false]
    exact ih (fun i hi => hp i (by omega))

theorem bulk_foldl_unique_match (P : Nat → Bool) (n : Nat) (init : Nat)
    (i₀ : Nat) (hi₀ : i₀ < n) (hp : P i₀ = true)
    (hothers : ∀ j < n, j ≠ i₀ → P j = false) :
    (List.range n).foldl (fun stop i => if P i then i + 1 else stop) init
      = i₀ + 1 := by
  induction n with
  | zero => omega
  | succ n ih =>
    rw [List.range_succ, List.foldl_append, List.foldl_cons, List.foldl_nil]
    by_cases hn : i₀ = n
    · subst hn
      rw [hp]
      simp
    · rw [hothers n (by omega) (fun hh => hn hh.symm)]
      simp only [Bool.false_eq_true, if_false]
      exact ih (by omega) (fun j hj hne => hothers j (by omega) hne)

theorem findIdx?_no_match (pred : Cell → Bool) (rows : List Cell)
    (h : ∀ i < rows.length, pred (rows.getD i none) = false) :
    ∀ s : Nat, List.findIdx? pred rows s = none := by
  induction rows with
  | nil => intro s; rfl
  | cons c rest ih =>
    intro s
    rw [List.findIdx?_cons]
    have h0 : pred c = false := h 0 (by simp)
    rw [h0]
    simp only [Bool.false_eq_true, if_false]
    exact ih (fun i hi => h (i + 1) (by simpa using hi)) (s + 1)

theorem findIdx?_first_match (pred : Cell → Bool) (rows : List Cell)
    (i₀ : Nat) (hi₀ : i₀ < rows.length)
    (hp : pred (rows.getD i₀ none) = true)
    (hmin : ∀ j < i₀, pred (rows.getD j none) = false) :
    ∀ s : Nat, List.findIdx? pred rows s = some (s + i₀) := by
  induction rows generalizing i₀ with
  | nil => simp at hi₀
  | cons c rest ih =>
    intro s
    rw [List.findIdx?_cons]
    cases i₀ with
    | zero =>
      rw [show pred c = true from hp]
      rfl
    | succ j =>
      have h0 : pred c = false := hmin 0 (by omega)
      rw [h0]
      simp only [Bool.false_eq_true, if_false]
      rw [ih j (by simpa using hi₀) hp
        (fun j' hj' => hmin (j' + 1) (by omega)) (s + 1)]
      congr 1
      omega

/-- **C9 (amended)**: when at most one row of the corpus parses to today's
calendar day, the bulk variant's scan and the chunked Row Fetcher's scan
agree: both stop at (and include) that row, and both use the full
accumulated row count when no such row exists.  (With several rows dated
today they differ — the bulk scan keeps the last, the chunked scan the
first — as the counterexample exhibits.) -/
theorem todayScan_agree (parseDate : Cell → Option JSDate) (today : JSDate)
    (rows : List Cell)
    (h : ∀ i j, i < rows.length → j < rows.length →
      isTodayCell parseDate today (rows.getD i none) = true →
      isTodayCell parseDate today (rows.getD j none) = true → i = j) :
    bulkStopAtIndex parseDate today rows =
      chunkedStopIndex parseDate today rows := by
  by_cases hex : ∃ i, i < rows.length ∧
      isTodayCell parseDate today (rows.getD i none) = true
  · obtain ⟨i₀, hi₀, hp⟩ := hex
    have hothers : ∀ j < rows.length, j ≠ i₀ →
        isTodayCell parseDate today (rows.getD j none) = false := by
      intro j hj hne
      by_contra hcon
      have : isTodayCell parseDate today (rows.getD j none) = true := by
        revert hcon
        cases isTodayCell parseDate today (rows.getD j none) <;> simp
      exact hne (h j i₀ hj hi₀ this hp)
    rw [bulkStopAtIndex,
      bulk_foldl_unique_match _ rows.length rows.length i₀ hi₀ hp hothers]
    rw [chunkedStopIndex,
      findIdx?_first_match _ rows i₀ hi₀ hp
        (fun j hj => hothers j (by omega) (by omega)) 0]
    simp
  · push_neg at hex
    have hall : ∀ i < rows.length,
        isTodayCell parseDate today (rows.getD i none) = false := by
      intro i hi
      have := hex i hi
      revert this
      cases isTodayCell parseDate today (rows.getD i none) <;> simp
    rw [bulkStopAtIndex, bulk_foldl_no_match _ rows.length rows.length hall]
    rw [chunkedStopIndex, findIdx?_no_match _ rows hall 0]

/-- Witness for C9 (amended): a three-row corpus whose single today-row is
the middle one; both scans stop at index 2. -/
theorem todayScan_agree_witness :
    bulkStopAtIndex
        (fun c => if c = some "T" then some ⟨2025, 9, 11, 6⟩ else none)
        ⟨2025, 9, 11, 6⟩ [some "x", some "T", some "y"] =
      chunkedStopIndex
        (fun c => if c = some "T" then some ⟨2025, 9, 11, 6⟩ else none)
        ⟨2025, 9, 11, 6⟩ [some "x", some "T", some "y"] :=
  todayScan_agree
    (fun c => if c = some "T" then some ⟨2025, 9, 11, 6⟩ else none)
    ⟨2025, 9, 11, 6⟩ [some "x", some "T", some "y"]
    (by
      intro i j hi hj hpi hpj
      have hi3 : i < 3 := by simpa using hi
      have hj3 : j < 3 := by simpa using hj
      interval_cases i <;> interval_cases j <;>
        first
        | rfl
        | (exfalso; revert hpi hpj; decide))
